import Mathlib

/-!
Verification of the Taipei-Torrent core (src/main.go) against its
natural-language specification.

The Go source is shallowly embedded: every mutating Go method becomes a
Lean function from the old state to the new state; the pseudo-random draw
of ChoosePiece and the wall clock of time.Seconds() are passed as explicit
parameters; the per-peer write channel is modelled as an outbox list of
messages, in send order.  Go map iteration order is unspecified; maps are
modelled as association lists and iterated in list order.  Indexing a Go
slice out of range panics at runtime; the model guards those accesses and
leaves the state unchanged there, and every theorem below keeps its inputs
in range so the difference is never exercised.  The program targets the
pre-1.0 Go toolchain of 2010, where the type int is 32 bits wide; the cast
int(k) of a uint64 therefore truncates to a signed 32-bit value, modelled
by goInt32.
-/

/-- STANDARD_BLOCK_LENGTH from src/main.go line 703. -/
def STANDARD_BLOCK_LENGTH : Int := 16 * 1024

/-- MAX_OUR_REQUESTS from src/main.go line 701. -/
def MAX_OUR_REQUESTS : Nat := 2

/-- MAX_PEER_REQUESTS from src/main.go line 702. -/
def MAX_PEER_REQUESTS : Nat := 10

/-- Go conversion uint32(x) of a (64-bit) signed integer: two's-complement
truncation to 32 bits, i.e. x mod 2^32 as an unsigned value. -/
def u32 (x : Int) : Nat := (x % (2 ^ 32 : Int)).toNat

/-- Go conversion uint64(x). -/
def u64 (x : Int) : Nat := (x % (2 ^ 64 : Int)).toNat

/-- Go conversion int(x) of a uint64 value on the 2010 toolchain, where
int is 32 bits: keep the low 32 bits and reinterpret as signed. -/
def goInt32 (x : Nat) : Int :=
  if x % 2 ^ 32 < 2 ^ 31 then ((x % 2 ^ 32 : Nat) : Int)
  else ((x % 2 ^ 32 : Nat) : Int) - 2 ^ 32

/-- uint32ToBytes from src/main.go lines 802-807: big-endian byte
decomposition of a 32-bit value. -/
def uint32ToBytes (n : Nat) : List Nat :=
  [n / 2 ^ 24 % 256, n / 2 ^ 16 % 256, n / 2 ^ 8 % 256, n % 256]

/-- bytesToUint32 from src/main.go lines 816-820.  The Go source combines
the four byte fields with bitwise or after shifting them to disjoint bit
ranges; on byte values (reduced mod 256, exact for the uint8 inputs of the
source) that bitwise or coincides with addition, which is how the model
writes it. -/
def bytesToUint32 (b : List Nat) : Nat :=
  (b.getD 0 0 % 256) * 2 ^ 24 + (b.getD 1 0 % 256) * 2 ^ 16 +
    (b.getD 2 0 % 256) * 2 ^ 8 + b.getD 3 0 % 256

/-- Modify the element at position i of a list, leaving the list unchanged
when i is out of range. -/
def modifyIdx (l : List Int) (i : Nat) (f : Int → Int) : List Int :=
  match l, i with
  | [], _ => []
  | v :: rest, 0 => f v :: rest
  | v :: rest, n + 1 => v :: modifyIdx rest n f

/-- ActivePiece from src/main.go lines 78-81.  downloaderCount entry -1
means the block is already downloaded. -/
structure ActivePiece where
  downloaderCount : List Int
  pieceLength : Int
deriving Repr, DecidableEq

/-- The loop of chooseBlockToDownloadNormal (src/main.go lines 90-98):
index of the first counter equal to 0. -/
def findZeroIdx : List Int → Option Nat
  | [] => none
  | v :: rest => if v = 0 then some 0 else (findZeroIdx rest).map (· + 1)

/-- chooseBlockToDownloadNormal from src/main.go lines 90-98: return the
first index whose counter is 0, incrementing that counter; -1 when none. -/
def ActivePiece.chooseBlockToDownloadNormal (a : ActivePiece) :
    Int × ActivePiece :=
  match findZeroIdx a.downloaderCount with
  | some i => ((i : Int), ⟨modifyIdx a.downloaderCount i (· + 1), a.pieceLength⟩)
  | none => (-1, a)

/-- The loop of chooseBlockToDownloadEndgame (src/main.go lines 102-106):
fold over the counters carrying (index, minCount), both starting at -1. -/
def egScan : List Int → Nat → Int → Int → Int × Int
  | [], _, idx, minC => (idx, minC)
  | v :: rest, i, idx, minC =>
    if 0 ≤ v ∧ (minC = -1 ∨ v < minC) then egScan rest (i + 1) (i : Int) v
    else egScan rest (i + 1) idx minC

/-- chooseBlockToDownloadEndgame from src/main.go lines 100-111: among
counters that are not -1, pick the lowest index attaining the minimum
value and increment it; -1 when every counter is negative. -/
def ActivePiece.chooseBlockToDownloadEndgame (a : ActivePiece) :
    Int × ActivePiece :=
  let r := egScan a.downloaderCount 0 (-1) (-1)
  if -1 < r.1 then
    (r.1, ⟨modifyIdx a.downloaderCount r.1.toNat (· + 1), a.pieceLength⟩)
  else (r.1, a)

/-- chooseBlockToDownload from src/main.go lines 83-88. -/
def ActivePiece.chooseBlockToDownload (a : ActivePiece) (endgame : Bool) :
    Int × ActivePiece :=
  if endgame then a.chooseBlockToDownloadEndgame
  else a.chooseBlockToDownloadNormal

/-- recordBlock from src/main.go lines 113-117: set the counter at index
to -1, returning its previous value.  An out-of-range index panics in Go;
the model returns 0 and leaves the piece unchanged there. -/
def ActivePiece.recordBlock (a : ActivePiece) (index : Nat) :
    Int × ActivePiece :=
  if index < a.downloaderCount.length then
    (a.downloaderCount.getD index 0,
      ⟨modifyIdx a.downloaderCount index (fun _ => -1), a.pieceLength⟩)
  else (0, a)

/-- isComplete from src/main.go lines 119-126. -/
def ActivePiece.isComplete (a : ActivePiece) : Bool :=
  a.downloaderCount.all (fun v => v == -1)

/-- Spec predicate: i is the lowest index whose counter equals 0. -/
def isLeastZero (dc : List Int) (i : Nat) : Prop :=
  i < dc.length ∧ dc.getD i 1 = 0 ∧ ∀ j, j < i → dc.getD j 1 ≠ 0

/-- Spec predicate: i is, among indices whose counter is nonnegative, the
lowest index attaining the minimum counter value. -/
def isEndgameChoice (dc : List Int) (i : Nat) : Prop :=
  i < dc.length ∧ 0 ≤ dc.getD i 0 ∧
    (∀ j, j < dc.length → 0 ≤ dc.getD j 0 → dc.getD i 0 ≤ dc.getD j 0) ∧
    (∀ j, j < i → 0 ≤ dc.getD j 0 → dc.getD i 0 < dc.getD j 0)

instance (dc : List Int) (i : Nat) : Decidable (isLeastZero dc i) := by
  unfold isLeastZero; infer_instance

instance (dc : List Int) (i : Nat) : Decidable (isEndgameChoice dc i) := by
  unfold isEndgameChoice; infer_instance

/-- Association-list lookup; models a Go map read. -/
def alLookup {κ ν : Type} [DecidableEq κ] : List (κ × ν) → κ → Option ν
  | [], _ => none
  | (k, v) :: rest, key => if key = k then some v else alLookup rest key

/-- Association-list insert/update; models a Go map write. -/
def alInsert {κ ν : Type} [DecidableEq κ] : List (κ × ν) → κ → ν → List (κ × ν)
  | [], key, val => [(key, val)]
  | (k, v) :: rest, key, val =>
    if key = k then (key, val) :: rest else (k, v) :: alInsert rest key val

/-- Association-list erase; models the Go two-value map delete idiom. -/
def alErase {κ ν : Type} [DecidableEq κ] (l : List (κ × ν)) (key : κ) :
    List (κ × ν) :=
  l.filter (fun kv => !(decide (kv.1 = key)))

/-- Modelled from the spec: Bitset (spec section 3), a component external
to src/main.go.  Only the logical length n and the test/set operations are
consumed by the core; the byte-packed backing array is abstracted to the
membership function bits. -/
structure Bitset where
  n : Int
  bits : Int → Bool

/-- Bitset.IsSet. -/
def Bitset.isSet (b : Bitset) (i : Int) : Bool := b.bits i

/-- Bitset.Set. -/
def Bitset.set (b : Bitset) (i : Int) : Bitset :=
  ⟨b.n, fun j => if j = i then true else b.bits j⟩

/-- NewBitset: all bits clear. -/
def NewBitset (n : Int) : Bitset := ⟨n, fun _ => false⟩

/-- The bit at logical index i of an MSB-first byte array. -/
def dataBit (data : List Nat) (i : Nat) : Bool :=
  data.getD (i / 8) 0 / 2 ^ (7 - i % 8) % 2 = 1

/-- Modelled from the spec: NewBitsetFromBytes (spec section 3, import-from-bytes;
external to src/main.go).  Builds a bitset of logical length n from an
MSB-first byte array; returns none when the byte length disagrees with
the ceiling of n/8 or a trailing padding bit is non-zero. -/
def NewBitsetFromBytes (n : Int) (data : List Nat) : Option Bitset :=
  if data.length = (n.toNat + 7) / 8 ∧
      (List.range (8 * data.length)).all
        (fun j => decide (j < n.toNat) || !dataBit data j) then
    some ⟨n, fun i => if 0 ≤ i ∧ i < n then dataBit data i.toNat else false⟩
  else none

/-- SessionInfo from the external torrent package (spec section 3): the
tracker counters consumed by the core.  PeerId and Port are never read by
the embedded operations and are omitted. -/
structure SessionInfo where
  uploaded : Int
  downloaded : Int
  left : Int

/-- peerState from src/main.go lines 705-719.  The write channel is
modelled by outbox, the list of payloads handed to sendMessage in order;
the address is the key under which the peer is stored in the session's
peers map; conn is outside the state. -/
structure PeerState where
  id : List Nat
  lastWriteTime : Int
  lastReadTime : Int
  haveBits : Option Bitset
  am_choking : Bool
  am_interested : Bool
  peer_choking : Bool
  peer_interested : Bool
  peer_requests : List Nat
  our_requests : List (Nat × Int)
  outbox : List (List Nat)

/-- NewPeerState from src/main.go lines 721-727. -/
def NewPeerState : PeerState :=
  ⟨[], 0, 0, none, true, false, true, false, [], [], []⟩

/-- p.have.IsSet(i); dereferencing a nil have panics in Go, modelled as
false (the theorems keep haveBits present wherever the source reads it). -/
def haveIsSet (p : PeerState) (i : Int) : Bool :=
  match p.haveBits with
  | some b => b.isSet i
  | none => false

/-- sendMessage from src/main.go lines 787-790. -/
def sendMessage (p : PeerState) (m : List Nat) (now : Int) : PeerState :=
  { p with outbox := p.outbox ++ [m], lastWriteTime := now }

/-- SetInterested from src/main.go lines 770-780. -/
def SetInterested (p : PeerState) (interested : Bool) (now : Int) :
    PeerState :=
  if interested ≠ p.am_interested then
    sendMessage { p with am_interested := interested }
      [if interested then 2 else 3] now
  else p

/-- CancelRequest from src/main.go lines 741-746. -/
def PeerState.CancelRequest (p : PeerState) (index beg _length : Nat) :
    PeerState :=
  let offset := Nat.lor (index <<< 32) beg
  if p.peer_requests.contains offset then
    { p with peer_requests := p.peer_requests.filter (fun k => !(k == offset)) }
  else p

/-- TorrentSession from src/main.go lines 128-141.  infoPieceLength is
t.m.Info.PieceLength; infoHash is t.m.InfoHash as raw bytes; fileStore is
the byte content of the virtual payload range, indexed by global offset. -/
structure TorrentSession where
  si : SessionInfo
  infoHash : List Nat
  pieceSet : Bitset
  totalPieces : Int
  totalSize : Int
  infoPieceLength : Int
  lastPieceLength : Int
  goodPieces : Int
  activePieces : List (Int × ActivePiece)
  peers : List (String × PeerState)
  fileStore : Int → Nat

/-- Read of t.peers[a]; the dispatch paths only ever name peers present in
the map, so the default is never reached there. -/
def TorrentSession.getPeer (t : TorrentSession) (a : String) : PeerState :=
  (alLookup t.peers a).getD NewPeerState

/-- Write-back of a mutation of the peerState owned by address a. -/
def TorrentSession.setPeer (t : TorrentSession) (a : String) (p : PeerState) :
    TorrentSession :=
  { t with peers := alInsert t.peers a p }

/-- FileStore.WriteAt, modelled from the spec (section 4.1, external to
src/main.go): write the data bytes at the given global offset. -/
def storeWriteAt (fs : Int → Nat) (data : List Nat) (off : Int) :
    Int → Nat :=
  fun x =>
    if 0 ≤ x - off ∧ x - off < (data.length : Int) then
      data.getD (x - off).toNat 0
    else fs x

/-- FileStore.ReadAt, modelled from the spec (section 4.1, external to
src/main.go): the n bytes starting at the given global offset. -/
def storeReadAt (fs : Int → Nat) (n : Nat) (off : Int) : List Nat :=
  (List.range n).map (fun j => fs (off + (j : Int)))

/-- requestBlockImp from src/main.go lines 387-410: build and send a
request (opcode 6) or cancel (opcode 8) message for the given block, and
record (request=true) or drop (request=false, the Go two-value map
assignment with false) the entry of our_requests keyed by
piece shifted left 32 bits or-ed with begin. -/
def TorrentSession.requestBlockImp (t : TorrentSession) (a : String)
    (piece block : Int) (request : Bool) (now : Int) : TorrentSession :=
  let beg := block * STANDARD_BLOCK_LENGTH
  let opcode : Nat := if request then 6 else 8
  let length :=
    if piece = t.totalPieces - 1 then
      if t.lastPieceLength - beg < STANDARD_BLOCK_LENGTH then
        t.lastPieceLength - beg
      else STANDARD_BLOCK_LENGTH
    else STANDARD_BLOCK_LENGTH
  let req := opcode :: (uint32ToBytes (u32 piece) ++ uint32ToBytes (u32 beg)
    ++ uint32ToBytes (u32 length))
  let requestIndex := Nat.lor (u64 piece <<< 32 % 2 ^ 64) (u64 beg)
  let p := t.getPeer a
  let reqs :=
    if request then alInsert p.our_requests requestIndex now
    else alErase p.our_requests requestIndex
  t.setPeer a (sendMessage { p with our_requests := reqs } req now)

/-- RequestBlock2 from src/main.go lines 375-384.  The returned Bool is
true exactly when the Go function returns os.EOF.  A piece index missing
from activePieces dereferences nil and panics in Go; the model returns
EOF there, and no call site reaches that case. -/
def TorrentSession.RequestBlock2 (t : TorrentSession) (a : String)
    (piece : Int) (endGame : Bool) (now : Int) : TorrentSession × Bool :=
  match alLookup t.activePieces piece with
  | some v =>
    let r := v.chooseBlockToDownload endGame
    if 0 ≤ r.1 then
      let ap2 := alInsert t.activePieces piece r.2
      (({ t with activePieces := ap2 }).requestBlockImp a piece r.1 true now,
        false)
    else (t, true)
  | none => (t, true)

/-- The two for k range t.activePieces loops of RequestBlock
(src/main.go lines 319-326 and 331-338), iterated over the given key
list: try RequestBlock2 on each active piece the peer has, stopping at
the first non-EOF result.  The returned Bool is true when a request was
issued (the loop returned nil). -/
def TorrentSession.tryActivePieces (t : TorrentSession) (a : String)
    (keys : List Int) (endGame : Bool) (now : Int) : TorrentSession × Bool :=
  match keys with
  | [] => (t, false)
  | k :: rest =>
    if haveIsSet (t.getPeer a) k then
      let r := t.RequestBlock2 a k endGame now
      if r.2 then r.1.tryActivePieces a rest endGame now else (r.1, true)
    else t.tryActivePieces a rest endGame now

/-- The loop body of checkRange (src/main.go lines 365-371), with fuel
end-start. -/
def checkRangeGo (t : TorrentSession) (p : PeerState) : Int → Nat → Int
  | _, 0 => -1
  | i, fuel + 1 =>
    if !t.pieceSet.isSet i && haveIsSet p i then
      if (alLookup t.activePieces i).isSome then checkRangeGo t p (i + 1) fuel
      else i
    else checkRangeGo t p (i + 1) fuel

/-- checkRange from src/main.go lines 364-373: the first index i in
[start, fin) with pieceSet[i] clear, peer.have[i] set and i not an active
piece; -1 when none. -/
def TorrentSession.checkRange (t : TorrentSession) (p : PeerState)
    (start fin : Int) : Int :=
  checkRangeGo t p start (fin - start).toNat

/-- ChoosePiece from src/main.go lines 354-362.  The draw
start = rand.Intn(t.totalPieces) is passed in as a parameter; the
function reads but never writes session and peer state. -/
def TorrentSession.ChoosePiece (t : TorrentSession) (p : PeerState)
    (start : Int) : Int :=
  let piece := t.checkRange p start t.totalPieces
  if piece = -1 then t.checkRange p 0 start else piece

/-- RequestBlock from src/main.go lines 318-352.  start is the random
draw consumed by ChoosePiece; the Option String is the returned os.Error
(some "EOF" for os.EOF). -/
def TorrentSession.RequestBlock (t : TorrentSession) (a : String)
    (start now : Int) : TorrentSession × Option String :=
  let r1 := t.tryActivePieces a (t.activePieces.map Prod.fst) false now
  if r1.2 then (r1.1, none)
  else
    let t1 := r1.1
    let piece := t1.ChoosePiece (t1.getPeer a) start
    if piece < 0 then
      let r2 := t1.tryActivePieces a (t1.activePieces.map Prod.fst) true now
      if r2.2 then (r2.1, none)
      else
        (r2.1.setPeer a (SetInterested (r2.1.getPeer a) false now), none)
    else
      let pieceLength :=
        if piece = t1.totalPieces - 1 then t1.lastPieceLength
        else t1.infoPieceLength
      let pieceCount :=
        Int.tdiv (pieceLength + STANDARD_BLOCK_LENGTH - 1)
          STANDARD_BLOCK_LENGTH
      let ap2 := alInsert t1.activePieces piece
        ⟨List.replicate pieceCount.toNat 0, pieceLength⟩
      let t2 := { t1 with activePieces := ap2 }
      let r3 := t2.RequestBlock2 a piece false now
      (r3.1, if r3.2 then some "EOF" else none)

/-- removeRequest from src/main.go lines 478-483: decrement the block
counter when the piece is active and the counter is positive.  An
out-of-range block index panics in Go; the model leaves the state
unchanged there. -/
def TorrentSession.removeRequest (t : TorrentSession) (piece block : Int) :
    TorrentSession :=
  match alLookup t.activePieces piece with
  | some v =>
    if 0 ≤ block ∧ block.toNat < v.downloaderCount.length then
      if 0 < v.downloaderCount.getD block.toNat 0 then
        let ap2 := alInsert t.activePieces piece
          ⟨modifyIdx v.downloaderCount block.toNat (fun x => x - 1),
            v.pieceLength⟩
        { t with activePieces := ap2 }
      else t
    else t
  | none => t

/-- The decode piece := int(k >> 32) of a request key (src/main.go line
468), with the 32-bit int of the 2010 toolchain. -/
def keyPiece (k : Nat) : Int := goInt32 (k >>> 32)

/-- The decode begin := int(k); block := begin / STANDARD_BLOCK_LENGTH of
a request key (src/main.go lines 469-470); Go integer division truncates
toward zero. -/
def keyBlock (k : Nat) : Int :=
  Int.tdiv (goInt32 k) STANDARD_BLOCK_LENGTH

/-- The for k range p.our_requests loop of removeRequests (src/main.go
lines 467-473), iterated over the given key list. -/
def removeRequestsLoop (t : TorrentSession) (keys : List Nat) :
    TorrentSession :=
  match keys with
  | [] => t
  | k :: rest =>
    removeRequestsLoop (t.removeRequest (keyPiece k) (keyBlock k)) rest

/-- removeRequests from src/main.go lines 466-476: return every
outstanding request to its active piece, then replace our_requests by a
fresh empty map. -/
def TorrentSession.removeRequests (t : TorrentSession) (a : String) :
    TorrentSession :=
  let t1 := removeRequestsLoop t ((t.getPeer a).our_requests.map Prod.fst)
  t1.setPeer a { t1.getPeer a with our_requests := [] }

/-- doChoke from src/main.go lines 460-464. -/
def TorrentSession.doChoke (t : TorrentSession) (a : String) :
    TorrentSession :=
  (t.setPeer a { t.getPeer a with peer_choking := true }).removeRequests a

/-- The loop of doCheckRequests (src/main.go lines 487-494). -/
def doCheckRequestsLoop (t : TorrentSession) (entries : List (Nat × Int))
    (now : Int) : TorrentSession :=
  match entries with
  | [] => t
  | (k, v) :: rest =>
    if 30 < now - v then
      doCheckRequestsLoop (t.removeRequest (keyPiece k) (keyBlock k)) rest
        now
    else doCheckRequestsLoop t rest now

/-- doCheckRequests from src/main.go lines 485-496: decrement the counter
of every request older than 30 seconds; the entries themselves are left
in our_requests. -/
def TorrentSession.doCheckRequests (t : TorrentSession) (a : String)
    (now : Int) : TorrentSession :=
  doCheckRequestsLoop t (t.getPeer a).our_requests now

/-- ClosePeer from src/main.go lines 232-237 (the transport close is
outside the state). -/
def TorrentSession.ClosePeer (t : TorrentSession) (a : String) :
    TorrentSession :=
  let t1 := t.removeRequests a
  { t1 with peers := alErase t1.peers a }

/-- The cancel loop of RecordBlock (src/main.go lines 422-429): for every
other peer whose our_requests holds this key, send a cancel via
requestBlockImp (which also drops that entry).  The loop's decrement of
the local requestCount variable is dead after the loop and is not
modelled. -/
def cancelLoop (t : TorrentSession) (a : String) (addrs : List String)
    (piece block : Int) (requestIndex : Nat) (now : Int) : TorrentSession :=
  match addrs with
  | [] => t
  | q :: rest =>
    if q ≠ a ∧ (alLookup (t.getPeer q).our_requests requestIndex).isSome then
      cancelLoop (t.requestBlockImp q piece block false now) a rest piece
        block requestIndex now
    else cancelLoop t a rest piece block requestIndex now

/-- The have-broadcast loop of RecordBlock (src/main.go lines 439-452):
send a have message to every peer with a known bitfield that lacks the
completed piece. -/
def broadcastHave (t : TorrentSession) (addrs : List String) (piece : Nat)
    (now : Int) : TorrentSession :=
  match addrs with
  | [] => t
  | q :: rest =>
    let p := t.getPeer q
    match p.haveBits with
    | none => broadcastHave t rest piece now
    | some hb =>
      if hb.isSet (piece : Int) then broadcastHave t rest piece now
      else
        broadcastHave
          (t.setPeer q (sendMessage p (4 :: uint32ToBytes piece) now)) rest
          piece now

/-- RecordBlock from src/main.go lines 412-458.  piece, begin and length
are the uint32 arguments.  The statement t.activePieces[int(piece)] = v,
false removes the completed entry; t.pieceSet.Set marks the piece held. -/
def TorrentSession.RecordBlock (t : TorrentSession) (a : String)
    (piece beg length : Nat) (now : Int) : TorrentSession :=
  let block := beg / STANDARD_BLOCK_LENGTH.toNat
  let requestIndex := Nat.lor (piece <<< 32) beg
  let p0 := t.getPeer a
  let t1 := t.setPeer a
    { p0 with our_requests := alErase p0.our_requests requestIndex }
  match alLookup t1.activePieces (goInt32 piece) with
  | some v =>
    let r := v.recordBlock block
    let ap2 := alInsert t1.activePieces (goInt32 piece) r.2
    let t2 := { t1 with activePieces := ap2 }
    let t3 :=
      if 1 < r.1 then
        cancelLoop t2 a (t2.peers.map Prod.fst) (goInt32 piece)
          (block : Int) requestIndex now
      else t2
    let si4 := { t3.si with downloaded := t3.si.downloaded + (length : Int) }
    let t4 := { t3 with si := si4 }
    if r.2.isComplete then
      let t5 := { t4 with
        activePieces := alErase t4.activePieces (goInt32 piece),
        si := { t4.si with left := t4.si.left - r.2.pieceLength },
        pieceSet := t4.pieceSet.set (goInt32 piece),
        goodPieces := t4.goodPieces + 1 }
      broadcastHave t5 (t5.peers.map Prod.fst) piece now
    else t4
  | none => t1

/-- sendRequest from src/main.go lines 670-686: when not choking the
peer, read the block from the store, send it as a piece message, and add
STANDARD_BLOCK_LENGTH to Uploaded.  A storage read error returns early in
Go; the modelled store is total. -/
def TorrentSession.sendRequest (t : TorrentSession) (a : String)
    (index beg length : Nat) (now : Int) : TorrentSession :=
  let p := t.getPeer a
  if !p.am_choking then
    let payload := storeReadAt t.fileStore length
      ((index : Int) * t.infoPieceLength + (beg : Int))
    let buf := 7 :: (uint32ToBytes index ++ uint32ToBytes beg ++ payload)
    let t1 := t.setPeer a (sendMessage p buf now)
    { t1 with si :=
      { t1.si with uploaded := t1.si.uploaded + STANDARD_BLOCK_LENGTH } }
  else t

/-- The loop of isInteresting (src/main.go lines 692-699), with fuel
totalPieces. -/
def isInterestingGo (t : TorrentSession) (p : PeerState) : Int → Nat → Bool
  | _, 0 => false
  | i, fuel + 1 =>
    if !t.pieceSet.isSet i && haveIsSet p i then true
    else isInterestingGo t p (i + 1) fuel

/-- isInteresting from src/main.go lines 692-699. -/
def TorrentSession.isInteresting (t : TorrentSession) (p : PeerState) :
    Bool :=
  isInterestingGo t p 0 t.totalPieces.toNat

/-- checkInteresting from src/main.go lines 688-690. -/
def TorrentSession.checkInteresting (t : TorrentSession) (a : String)
    (now : Int) : TorrentSession :=
  t.setPeer a (SetInterested (t.getPeer a) (t.isInteresting (t.getPeer a))
    now)

/-- The unchoke loop of DoMessage case 1 (src/main.go lines 532-537):
call RequestBlock up to MAX_OUR_REQUESTS times, stopping at the first
error; each call consumes one random draw from rands. -/
def unchokeLoop (t : TorrentSession) (a : String) (rands : List Int)
    (now : Int) : Nat → TorrentSession × Option String
  | 0 => (t, none)
  | fuel + 1 =>
    let r := t.RequestBlock a (rands.getD 0 0) now
    match r.2 with
    | some e => (r.1, some e)
    | none => unchokeLoop r.1 a (rands.drop 1) now fuel

/-- DoMessage from src/main.go lines 498-668.  message = none models the
nil byte slice delivered by the reader task when the connection closes;
rands supplies the random draws consumed by the RequestBlock calls (one
per call, in order); the Option String result is the returned os.Error.
Slicing a too-short message panics in Go; the model's drop/take yield a
short list there, and the theorems below always supply well-formed
messages. -/
def TorrentSession.DoMessage (t : TorrentSession) (a : String)
    (message : Option (List Nat)) (rands : List Int) (now : Int) :
    TorrentSession × Option String :=
  let p := t.getPeer a
  if p.id.length = 0 then
    match message with
    | none => (t, some "missing header")
    | some m =>
      if (m.drop 8).take 20 ≠ t.infoHash then
        (t, some "this peer does not have the right info hash")
      else (t.setPeer a { p with id := (m.drop 28).take 20 }, none)
  else
    let m := message.getD []
    if m.length = 0 then (t, none)
    else
      let messageId := m.getD 0 0
      let p :=
        if p.haveBits.isNone ∧ messageId ≠ 5 then
          { p with haveBits := some (NewBitset t.totalPieces) }
        else p
      let t := t.setPeer a p
      if messageId = 0 then
        if m.length ≠ 1 then (t, some "unexpected length")
        else (t.doChoke a, none)
      else if messageId = 1 then
        if m.length ≠ 1 then (t, some "unexpected length")
        else
          let t := t.setPeer a { p with peer_choking := false }
          unchokeLoop t a rands now MAX_OUR_REQUESTS
      else if messageId = 2 then
        if m.length ≠ 1 then (t, some "unexpected length")
        else (t.setPeer a { p with peer_interested := true }, none)
      else if messageId = 3 then
        if m.length ≠ 1 then (t, some "unexpected length")
        else (t.setPeer a { p with peer_interested := false }, none)
      else if messageId = 4 then
        if m.length ≠ 5 then (t, some "unexpected length")
        else
          match p.haveBits with
          | none => (t, some "nil have bitfield")
          | some hb =>
            let n := bytesToUint32 (m.drop 1)
            if n < u32 hb.n then
              let p2 := { p with haveBits := some (hb.set (goInt32 n)) }
              let p3 :=
                if !p2.am_interested && !t.pieceSet.isSet (goInt32 n) then
                  SetInterested p2 true now
                else p2
              (t.setPeer a p3, none)
            else (t, some "have index is out of range")
      else if messageId = 5 then
        if !p.haveBits.isNone then (t, some "late bitfield operation")
        else
          match NewBitsetFromBytes t.totalPieces (m.drop 1) with
          | none => (t, some "invalid bitfield data")
          | some hb =>
            let t := t.setPeer a { p with haveBits := some hb }
            (t.checkInteresting a now, none)
      else if messageId = 6 then
        if m.length ≠ 13 then (t, some "unexpected message length")
        else
          match p.haveBits with
          | none => (t, some "nil have bitfield")
          | some hb =>
            let index := bytesToUint32 (m.drop 1)
            let beg := bytesToUint32 (m.drop 5)
            let length := bytesToUint32 (m.drop 9)
            if u32 hb.n ≤ index then (t, some "piece out of range")
            else if !t.pieceSet.isSet (goInt32 index) then
              (t, some "we do not have that piece")
            else if t.infoPieceLength ≤ (beg : Int) then
              (t, some "begin out of range")
            else if t.infoPieceLength < (beg : Int) + (length : Int) then
              (t, some "begin plus length out of range")
            else if (length : Int) ≠ STANDARD_BLOCK_LENGTH then
              (t, some "unexpected block length")
            else (t.sendRequest a index beg length now, none)
      else if messageId = 7 then
        if m.length < 9 then (t, some "unexpected message length")
        else
          match p.haveBits with
          | none => (t, some "nil have bitfield")
          | some hb =>
            let index := bytesToUint32 (m.drop 1)
            let beg := bytesToUint32 (m.drop 5)
            let length := m.length - 9
            if u32 hb.n ≤ index then (t, some "piece out of range")
            else if t.pieceSet.isSet (goInt32 index) then (t, none)
            else if t.infoPieceLength ≤ (beg : Int) then
              (t, some "begin out of range")
            else if t.infoPieceLength < (beg : Int) + (length : Int) then
              (t, some "begin plus length out of range")
            else if 128 * 1024 < length then
              (t, some "block length too large")
            else
              let globalOffset :=
                (index : Int) * t.infoPieceLength + (beg : Int)
              let fs2 := storeWriteAt t.fileStore (m.drop 9) globalOffset
              let t2 := { t with fileStore := fs2 }
              let t3 := t2.RecordBlock a index beg length now
              t3.RequestBlock a (rands.getD 0 0) now
      else if messageId = 8 then
        if m.length ≠ 13 then (t, some "unexpected message length")
        else
          match p.haveBits with
          | none => (t, some "nil have bitfield")
          | some hb =>
            let index := bytesToUint32 (m.drop 1)
            let beg := bytesToUint32 (m.drop 5)
            let length := bytesToUint32 (m.drop 9)
            if u32 hb.n ≤ index then (t, some "piece out of range")
            else if !t.pieceSet.isSet (goInt32 index) then
              (t, some "we do not have that piece")
            else if t.infoPieceLength ≤ (beg : Int) then
              (t, some "begin out of range")
            else if t.infoPieceLength < (beg : Int) + (length : Int) then
              (t, some "begin plus length out of range")
            else if (length : Int) ≠ STANDARD_BLOCK_LENGTH then
              (t, some "unexpected block length")
            else (t.setPeer a (p.CancelRequest index beg length), none)
      else if messageId = 9 then (t, none)
      else (t, some "unknown message id")

/-- The Left initialisation of NewTorrentSession (src/main.go lines 159
and 173-177): lastPieceLength = totalSize mod PieceLength; left starts at
bad times PieceLength and, when the last piece is unverified, is adjusted
by subtracting PieceLength and adding lastPieceLength. -/
def initLeft (totalSize pieceLength bad : Int) (lastPieceSet : Bool) : Int :=
  let lastPieceLength := totalSize % pieceLength
  if !lastPieceSet then bad * pieceLength - pieceLength + lastPieceLength
  else bad * pieceLength

/-- The true length of piece i in a torrent of N pieces, total size T and
nominal piece length L (spec sections 3 and 8): L for interior pieces and
T - (N-1)*L for the last. -/
def pieceTrueLength (T L N i : Int) : Int :=
  if i = N - 1 then T - (N - 1) * L else L

/-- A minimal concrete session used by the concrete instantiations: one
16384-byte piece, not yet verified, no peers, no active pieces. -/
def baseSession : TorrentSession where
  si := ⟨0, 0, 0⟩
  infoHash := List.replicate 20 7
  pieceSet := NewBitset 1
  totalPieces := 1
  totalSize := 16384
  infoPieceLength := 16384
  lastPieceLength := 0
  goodPieces := 0
  activePieces := []
  peers := []
  fileStore := fun _ => 0

/-- Peer used by the C10 witness: handshake recorded, bitfield known. -/
def peerC10 : PeerState :=
  { NewPeerState with id := [9], haveBits := some (Bitset.mk 1 (fun _ => true)) }

/-- Session used by the C10 witness: the single piece is already held. -/
def sessionC10 : TorrentSession :=
  { baseSession with
    pieceSet := Bitset.mk 1 (fun _ => true)
    peers := [("A", peerC10)] }

/-- Session used by the C7 counterexample: one known peer, no active
pieces. -/
def sessionC7 : TorrentSession :=
  { baseSession with peers := [("A", { NewPeerState with id := [1] })] }

/-- Session used by the C7 amended witness: piece 0 active with a single
block. -/
def sessionC7w : TorrentSession :=
  { baseSession with
    peers := [("A", { NewPeerState with id := [1] })]
    activePieces := [(0, ActivePiece.mk [0] 16384)] }

/-- Spec predicate for piece selection: piece i is unverified, offered by
the peer, and not currently active. -/
def goodPiece (t : TorrentSession) (p : PeerState) (i : Int) : Prop :=
  t.pieceSet.isSet i = false ∧ haveIsSet p i = true ∧
    alLookup t.activePieces i = none

instance (t : TorrentSession) (p : PeerState) (i : Int) :
    Decidable (goodPiece t p i) := by
  unfold goodPiece; infer_instance

/-- The position of index i in the scan order that starts at s: indices
s, s+1, ..., N-1, 0, 1, ..., s-1. -/
def rotPos (s n i : Int) : Int :=
  if s ≤ i then i - s else i + (n - s)

/-- Peer used by the C5 witness: offers only piece 0. -/
def peerC5 : PeerState :=
  { NewPeerState with
    id := [1]
    haveBits := some (Bitset.mk 2 (fun i => i == 0)) }

/-- Session used by the C5 witness: two unverified pieces. -/
def sessionC5 : TorrentSession :=
  { baseSession with
    totalPieces := 2
    pieceSet := NewBitset 2
    peers := [("A", peerC5)] }

/-- The downloader counter of block b of piece pi, read through the
activePieces map; -2 when the piece is not active (a real counter is
never -2). -/
def apCount (t : TorrentSession) (pi b : Int) : Int :=
  match alLookup t.activePieces pi with
  | some v => v.downloaderCount.getD b.toNat 0
  | none => -2

/-- Presence, block-vector length and piece length of an active piece. -/
def apShape (t : TorrentSession) (pi : Int) : Option (Nat × Int) :=
  (alLookup t.activePieces pi).map
    (fun v => (v.downloaderCount.length, v.pieceLength))

/-- Peer used by the C4 witness: two outstanding requests on piece 0,
blocks 0 and 1. -/
def peerC4 : PeerState :=
  { NewPeerState with
    id := [1]
    our_requests := [(0, 100), (16384, 100)] }

/-- Session used by the C4 witness: piece 0 active with counters
[2, 0, -1]. -/
def sessionC4 : TorrentSession :=
  { baseSession with
    activePieces := [(0, ActivePiece.mk [2, 0, -1] 16384)]
    peers := [("A", peerC4)] }

/-- Peer used by the C8 witness. -/
def peerC8 : PeerState :=
  { NewPeerState with
    id := [1]
    haveBits := some (Bitset.mk 1 (fun _ => true)) }

/-- Session used by the C8 witness: the single piece is held, so a
request for it is legal except for its length field. -/
def sessionC8 : TorrentSession :=
  { baseSession with
    pieceSet := Bitset.mk 1 (fun _ => true)
    peers := [("A", peerC8)] }

/-- Peer used by the C6 counterexample: handshake recorded, offers the
only piece. -/
def peerC6 : PeerState :=
  { NewPeerState with
    id := [1]
    haveBits := some (Bitset.mk 1 (fun i => i == 0)) }

/-- Session used by the C6 counterexample: one unverified piece of four
blocks, already active with all counters 0. -/
def sessionC6 : TorrentSession :=
  { baseSession with
    totalSize := 2 * 65536
    totalPieces := 2
    infoPieceLength := 65536
    lastPieceLength := 0
    pieceSet := NewBitset 2
    activePieces := [(0, ActivePiece.mk [0, 0, 0, 0] 65536)]
    peers := [("A", peerC6)] }

/-- The C1 invariant: a verified piece never has an active entry. -/
def disjointInv (t : TorrentSession) : Prop :=
  ∀ p : Int, t.pieceSet.isSet p = true → alLookup t.activePieces p = none

/-- Peer used by the C1 witness. -/
def peerC1 : PeerState :=
  { NewPeerState with
    id := [3]
    haveBits := some (Bitset.mk 1 (fun _ => true)) }

/-- Session used by the C1 witness: the single piece is verified and no
piece is active, so the invariant holds pointwise by rfl. -/
def sessionC1 : TorrentSession :=
  { baseSession with
    pieceSet := Bitset.mk 1 (fun _ => true)
    goodPieces := 1
    peers := [("A", peerC1)] }

theorem bytesToUint32_uint32ToBytes (n : Nat) (h : n < 2 ^ 32) :
    bytesToUint32 (uint32ToBytes n) = n := by
  simp only [bytesToUint32, uint32ToBytes, List.getD_cons_zero,
    List.getD_cons_succ]
  omega

theorem modifyIdx_length (l : List Int) (i : Nat) (f : Int → Int) :
    (modifyIdx l i f).length = l.length := by
  induction l generalizing i with
  | nil => rfl
  | cons v rest ih =>
    cases i with
    | zero => rfl
    | succ n => simp [modifyIdx, ih]

theorem modifyIdx_getD_same (l : List Int) (i : Nat) (f : Int → Int)
    (h : i < l.length) (d : Int) :
    (modifyIdx l i f).getD i d = f (l.getD i d) := by
  induction l generalizing i with
  | nil => simp at h
  | cons v rest ih =>
    cases i with
    | zero => rfl
    | succ n =>
      simp only [modifyIdx, List.getD_cons_succ]
      exact ih n (by simpa using h)

theorem modifyIdx_getD_other (l : List Int) (i j : Nat) (f : Int → Int)
    (h : i ≠ j) (d : Int) :
    (modifyIdx l i f).getD j d = l.getD j d := by
  induction l generalizing i j with
  | nil => rfl
  | cons v rest ih =>
    cases i with
    | zero =>
      cases j with
      | zero => exact absurd rfl h
      | succ m => rfl
    | succ n =>
      cases j with
      | zero => rfl
      | succ m =>
        simp only [modifyIdx, List.getD_cons_succ]
        exact ih n m (by omega)

theorem findZeroIdx_of_least (l : List Int) (i : Nat)
    (h : isLeastZero l i) : findZeroIdx l = some i := by
  obtain ⟨hlen, hzero, hmin⟩ := h
  induction l generalizing i with
  | nil => simp at hlen
  | cons v rest ih =>
    cases i with
    | zero =>
      simp only [List.getD_cons_zero] at hzero
      simp [findZeroIdx, hzero]
    | succ k =>
      have hv : v ≠ 0 := by
        have := hmin 0 (Nat.succ_pos k)
        simpa using this
      simp only [findZeroIdx, if_neg hv]
      rw [ih k (by simpa using hlen) (by simpa using hzero)
        (fun j hj => by
          have := hmin (j + 1) (by omega)
          simpa using this)]
      rfl

theorem findZeroIdx_of_none (l : List Int)
    (h : ∀ j, j < l.length → l.getD j 1 ≠ 0) : findZeroIdx l = none := by
  induction l with
  | nil => rfl
  | cons v rest ih =>
    have hv : v ≠ 0 := by have := h 0 (by simp); simpa using this
    simp only [findZeroIdx, if_neg hv]
    rw [ih (fun j hj => by
      have := h (j + 1) (by simpa using Nat.succ_lt_succ hj)
      simpa using this)]
    rfl

theorem egScan_stay (l : List Int) (i : Nat) (idx minC : Int)
    (h0 : 0 ≤ minC)
    (hmin : ∀ j, j < l.length → 0 ≤ l.getD j 0 → minC ≤ l.getD j 0) :
    egScan l i idx minC = (idx, minC) := by
  induction l generalizing i with
  | nil => rfl
  | cons v rest ih =>
    have hcond : ¬(0 ≤ v ∧ (minC = -1 ∨ v < minC)) := by
      intro ⟨hv, hor⟩
      have := hmin 0 (by simp) (by simpa using hv)
      simp only [List.getD_cons_zero] at this
      omega
    simp only [egScan, if_neg hcond]
    exact ih (i + 1) (fun j hj hv => by
      have := hmin (j + 1) (by simpa using Nat.succ_lt_succ hj) (by simpa using hv)
      simpa using this)

theorem egScan_descend (l : List Int) (k : Nat)
    (hk : k < l.length) (hpos : 0 ≤ l.getD k 0)
    (hmin : ∀ j, j < l.length → 0 ≤ l.getD j 0 → l.getD k 0 ≤ l.getD j 0)
    (hlt : ∀ j, j < k → 0 ≤ l.getD j 0 → l.getD k 0 < l.getD j 0) :
    ∀ (i : Nat) (idx minC : Int), (minC = -1 ∨ l.getD k 0 < minC) →
      egScan l i idx minC = (((i : Int) + (k : Int)), l.getD k 0) := by
  induction l generalizing k with
  | nil => simp at hk
  | cons v rest ih =>
    intro i idx minC hbetter
    cases k with
    | zero =>
      simp only [List.getD_cons_zero] at hpos hbetter ⊢
      have hcond : 0 ≤ v ∧ (minC = -1 ∨ v < minC) := ⟨hpos, hbetter⟩
      simp only [egScan, if_pos hcond]
      rw [egScan_stay rest (i + 1) (i : Int) v hpos
        (fun j hj hv => by
          have := hmin (j + 1) (by simpa using Nat.succ_lt_succ hj)
            (by simpa using hv)
          simpa using this)]
      simp
    | succ k' =>
      have hk' : k' < rest.length := by simpa using hk
      have hpos' : 0 ≤ rest.getD k' 0 := by simpa using hpos
      have hmin' : ∀ j, j < rest.length → 0 ≤ rest.getD j 0 →
          rest.getD k' 0 ≤ rest.getD j 0 := fun j hj hv => by
        have := hmin (j + 1) (by simpa using Nat.succ_lt_succ hj)
          (by simpa using hv)
        simpa using this
      have hlt' : ∀ j, j < k' → 0 ≤ rest.getD j 0 →
          rest.getD k' 0 < rest.getD j 0 := fun j hj hv => by
        have := hlt (j + 1) (by omega) (by simpa using hv)
        simpa using this
      by_cases hv : 0 ≤ v
      · have hvgt : rest.getD k' 0 < v := by
          have := hlt 0 (Nat.succ_pos k') (by simpa using hv)
          simpa using this
        by_cases hrepl : minC = -1 ∨ v < minC
        · simp only [egScan, if_pos (And.intro hv hrepl),
            List.getD_cons_succ]
          rw [ih k' hk' hpos' hmin' hlt' (i + 1) (i : Int) v (Or.inr hvgt)]
          simp only [Prod.mk.injEq]
          exact ⟨by push_cast; ring, trivial⟩
        · have hcond : ¬(0 ≤ v ∧ (minC = -1 ∨ v < minC)) :=
            fun hc => hrepl hc.2
          simp only [egScan, if_neg hcond, List.getD_cons_succ]
          rw [ih k' hk' hpos' hmin' hlt' (i + 1) idx minC hbetter]
          simp only [Prod.mk.injEq]
          exact ⟨by push_cast; ring, trivial⟩
      · have hcond : ¬(0 ≤ v ∧ (minC = -1 ∨ v < minC)) := fun hc => hv hc.1
        simp only [egScan, if_neg hcond, List.getD_cons_succ]
        rw [ih k' hk' hpos' hmin' hlt' (i + 1) idx minC hbetter]
        simp only [Prod.mk.injEq]
        exact ⟨by push_cast; ring, trivial⟩

theorem egScan_all_neg (l : List Int) (i : Nat)
    (h : ∀ j, j < l.length → l.getD j 0 < 0) :
    egScan l i (-1) (-1) = (-1, -1) := by
  induction l generalizing i with
  | nil => rfl
  | cons v rest ih =>
    have hv : v < 0 := by have := h 0 (by simp); simpa using this
    simp only [egScan]
    rw [if_neg (fun hc => absurd hc.1 (by omega))]
    exact ih (i + 1) (fun j hj => by
      have := h (j + 1) (by simpa using Nat.succ_lt_succ hj)
      simpa using this)

theorem chooseBlockToDownload_false (a : ActivePiece) :
    a.chooseBlockToDownload false = a.chooseBlockToDownloadNormal := rfl

theorem chooseBlockToDownload_true (a : ActivePiece) :
    a.chooseBlockToDownload true = a.chooseBlockToDownloadEndgame := rfl

/-- C2: ActivePiece.chooseBlockToDownload(endgame): with endgame=false it
returns the lowest index whose counter equals 0 and increments that
counter to 1, returning NONE (-1) with no counter modified when no counter
is 0; with endgame=true it returns, among indices whose counter is >= 0,
the lowest index attaining the minimum counter value and increments that
counter, returning NONE (-1) with no counter modified when every counter
is -1. -/
theorem chooseBlockToDownload_spec (a : ActivePiece) (i : Nat) :
    (isLeastZero a.downloaderCount i →
      a.chooseBlockToDownload false =
        ((i : Int), ⟨modifyIdx a.downloaderCount i (· + 1), a.pieceLength⟩) ∧
        (modifyIdx a.downloaderCount i (· + 1)).getD i 0 = 1) ∧
    ((∀ j, j < a.downloaderCount.length → a.downloaderCount.getD j 1 ≠ 0) →
      a.chooseBlockToDownload false = (-1, a)) ∧
    (isEndgameChoice a.downloaderCount i →
      a.chooseBlockToDownload true =
        ((i : Int), ⟨modifyIdx a.downloaderCount i (· + 1), a.pieceLength⟩)) ∧
    ((∀ j, j < a.downloaderCount.length → a.downloaderCount.getD j 0 = -1) →
      a.chooseBlockToDownload true = (-1, a)) := by
  refine ⟨fun h => ?_, fun h => ?_, fun h => ?_, fun h => ?_⟩
  · have hfz := findZeroIdx_of_least a.downloaderCount i h
    obtain ⟨hlen, hzero, hmin⟩ := h
    refine ⟨?_, ?_⟩
    · rw [chooseBlockToDownload_false]
      simp [ActivePiece.chooseBlockToDownloadNormal, hfz]
    · rw [modifyIdx_getD_same a.downloaderCount i _ hlen 0]
      have h2 : a.downloaderCount.getD i 0 = a.downloaderCount.getD i 1 := by
        rw [List.getD_eq_getElem a.downloaderCount 0 hlen,
          List.getD_eq_getElem a.downloaderCount 1 hlen]
      omega
  · rw [chooseBlockToDownload_false]
    simp [ActivePiece.chooseBlockToDownloadNormal,
      findZeroIdx_of_none a.downloaderCount h]
  · obtain ⟨hlen, hpos, hmin, hlt⟩ := h
    have hsc := egScan_descend a.downloaderCount i hlen hpos hmin hlt 0 (-1)
      (-1) (Or.inl rfl)
    rw [chooseBlockToDownload_true]
    unfold ActivePiece.chooseBlockToDownloadEndgame
    rw [hsc]
    have h1 : (-1 : Int) < ((0 : Nat) : Int) + (i : Int) := by push_cast; omega
    rw [if_pos h1]
    simp only [Prod.mk.injEq]
    refine ⟨by push_cast; ring, ?_⟩
    have h2 : (((0 : Nat) : Int) + (i : Int)).toNat = i := by omega
    rw [h2]
  · have hneg : ∀ j, j < a.downloaderCount.length →
        a.downloaderCount.getD j 0 < 0 := fun j hj => by
      rw [h j hj]; omega
    rw [chooseBlockToDownload_true]
    unfold ActivePiece.chooseBlockToDownloadEndgame
    rw [egScan_all_neg a.downloaderCount 0 hneg]
    rw [if_neg (by omega)]

/-- Witness for C2 at a concrete piece: counters [-1, 0, 3], normal mode
chooses block 1 and sets its counter to 1. -/
theorem chooseBlockToDownload_spec_witness :
    isLeastZero [-1, 0, 3] 1 ∧
      ((ActivePiece.mk [-1, 0, 3] 5).chooseBlockToDownload false =
        (1, ⟨modifyIdx [-1, 0, 3] 1 (· + 1), 5⟩) ∧
        (modifyIdx [-1, 0, 3] 1 (· + 1)).getD 1 0 = 1) :=
  ⟨by decide, (chooseBlockToDownload_spec ⟨[-1, 0, 3], 5⟩ 1).1 (by decide)⟩

theorem alLookup_insert {κ ν : Type} [DecidableEq κ] (l : List (κ × ν))
    (k : κ) (v : ν) (q : κ) :
    alLookup (alInsert l k v) q = if q = k then some v else alLookup l q := by
  induction l with
  | nil => simp [alInsert, alLookup]
  | cons kv rest ih =>
    obtain ⟨k0, v0⟩ := kv
    by_cases hk : k = k0 <;> by_cases hq1 : q = k <;> by_cases hq2 : q = k0 <;>
      simp_all [alInsert, alLookup]

theorem alLookup_erase {κ ν : Type} [DecidableEq κ] (l : List (κ × ν))
    (k q : κ) :
    alLookup (alErase l k) q = if q = k then none else alLookup l q := by
  induction l with
  | nil => simp [alErase, alLookup]
  | cons kv rest ih =>
    obtain ⟨k0, v0⟩ := kv
    by_cases h0 : k0 = k <;> by_cases hq : q = k0 <;>
      simp_all [alErase, alLookup, List.filter_cons]

theorem getPeer_setPeer (t : TorrentSession) (a q : String) (p : PeerState) :
    (t.setPeer a p).getPeer q = if q = a then p else t.getPeer q := by
  simp only [TorrentSession.setPeer, TorrentSession.getPeer, alLookup_insert]
  by_cases h : q = a <;> simp [h]

theorem bytesToUint32_firstFour (n : Nat) (rest : List Nat) :
    bytesToUint32 (uint32ToBytes n ++ rest) = bytesToUint32 (uint32ToBytes n)
    := by
  simp [bytesToUint32, uint32ToBytes]

/-- C3 (code bug): the source initialises Left as bad*L - L +
(totalSize mod L) whenever the last piece is unverified; when totalSize
is a multiple of L the correction subtracts a full piece although the
last piece really has length L.  At T = L = 16384 with the single piece
unverified (bad = 1), the code yields Left = 0 while the true remaining
length is 16384. -/
theorem initLeft_multiple_of_pieceLength_bug :
    initLeft 16384 16384 1 false = 0 ∧
      pieceTrueLength 16384 16384 1 0 = 16384 ∧ (0 : Int) ≠ 16384 := by
  refine ⟨by decide, by decide, by decide⟩

/-- C9: once the handshake has been recorded (peer.id nonempty), a nil
message from the reader task takes the keep-alive path of DoMessage: no
error is returned and the session is unchanged, so a closed connection is
not removed from the peers map by the dispatch path; only the
pre-handshake nil message produces the missing header error. -/
theorem DoMessage_nil_sentinel (t : TorrentSession) (a : String)
    (rands : List Int) (now : Int) :
    ((t.getPeer a).id.length ≠ 0 →
      t.DoMessage a none rands now = (t, none)) ∧
    ((t.getPeer a).id.length = 0 →
      t.DoMessage a none rands now = (t, some "missing header")) := by
  constructor
  · intro h
    simp [TorrentSession.DoMessage, h]
  · intro h
    simp [TorrentSession.DoMessage, h]

/-- Witness for C9: a session holding one peer with a recorded handshake
id; the nil sentinel leaves it untouched with no error. -/
theorem DoMessage_nil_sentinel_witness :
    (((baseSession.setPeer "A" { NewPeerState with id := [1, 2, 3]
      }).getPeer "A").id.length ≠ 0) ∧
      ((baseSession.setPeer "A" { NewPeerState with id := [1, 2, 3]
        }).DoMessage "A" none [] 0 =
        (baseSession.setPeer "A" { NewPeerState with id := [1, 2, 3] },
          none)) :=
  ⟨by decide,
    (DoMessage_nil_sentinel
      (baseSession.setPeer "A" { NewPeerState with id := [1, 2, 3] })
      "A" [] 0).1 (by decide)⟩

/-- C10: an opcode-7 piece message whose index is in range of peer.have
and already set in pieceSet returns no error and leaves the file store,
the active pieces, Downloaded, and every peer's our_requests and outbox
unchanged, for every begin field and payload (even ones that would fail
the later bounds checks): the already-have check runs before those
validations. -/
theorem DoMessage_piece_already_have (t : TorrentSession) (a : String)
    (idx beg : Nat) (payload : List Nat) (rands : List Int) (now : Int)
    (hb : Bitset)
    (hid : (t.getPeer a).id.length ≠ 0)
    (hhb : (t.getPeer a).haveBits = some hb)
    (hidx : idx < 2 ^ 32)
    (hrange : idx < u32 hb.n)
    (hhave : t.pieceSet.isSet (goInt32 idx) = true) :
    (t.DoMessage a
      (some (7 :: (uint32ToBytes idx ++ (uint32ToBytes beg ++ payload))))
      rands now).2 = none ∧
    ((t.DoMessage a
      (some (7 :: (uint32ToBytes idx ++ (uint32ToBytes beg ++ payload))))
      rands now).1.fileStore = t.fileStore ∧
    (t.DoMessage a
      (some (7 :: (uint32ToBytes idx ++ (uint32ToBytes beg ++ payload))))
      rands now).1.activePieces = t.activePieces ∧
    (t.DoMessage a
      (some (7 :: (uint32ToBytes idx ++ (uint32ToBytes beg ++ payload))))
      rands now).1.si.downloaded = t.si.downloaded ∧
    ∀ q,
      ((t.DoMessage a
        (some (7 :: (uint32ToBytes idx ++ (uint32ToBytes beg ++ payload))))
        rands now).1.getPeer q).our_requests =
        (t.getPeer q).our_requests ∧
      ((t.DoMessage a
        (some (7 :: (uint32ToBytes idx ++ (uint32ToBytes beg ++ payload))))
        rands now).1.getPeer q).outbox = (t.getPeer q).outbox) := by
  have hix2 : bytesToUint32
      (uint32ToBytes idx ++ (uint32ToBytes beg ++ payload)) = idx := by
    rw [bytesToUint32_firstFour, bytesToUint32_uint32ToBytes idx hidx]
  have key : t.DoMessage a
      (some (7 :: (uint32ToBytes idx ++ (uint32ToBytes beg ++ payload))))
      rands now = (t.setPeer a (t.getPeer a), none) := by
    simp only [TorrentSession.DoMessage, if_neg hid, Option.getD_some,
      List.getD_cons_zero, hhb, Option.isNone_some, Bool.false_eq_true,
      false_and, if_false]
    norm_num
    rw [if_neg (by simp only [uint32ToBytes, List.length_cons,
      List.length_append, List.length_nil]; omega)]
    rw [hix2, if_neg (by omega)]
    simp only [TorrentSession.setPeer]
    simp [hhave]
  rw [key]
  refine ⟨rfl, rfl, rfl, rfl, fun q => ?_⟩
  rw [getPeer_setPeer]
  by_cases hq : q = a <;> simp [hq]

/-- Witness for C10: a piece message for the already-held piece 0 whose
begin field (999999) is far beyond the 16384-byte piece is ignored
without error. -/
theorem DoMessage_piece_already_have_witness :
    (sessionC10.getPeer "A").id.length ≠ 0 ∧
      (sessionC10.getPeer "A").haveBits = some (Bitset.mk 1 (fun _ => true)) ∧
      sessionC10.pieceSet.isSet (goInt32 0) = true ∧
      (sessionC10.DoMessage "A"
        (some (7 :: (uint32ToBytes 0 ++ (uint32ToBytes 999999 ++ [1, 2, 3]))))
        [] 0).2 = none :=
  ⟨by decide, rfl, rfl,
    (DoMessage_piece_already_have sessionC10 "A" 0 999999 [1, 2, 3] [] 0
      (Bitset.mk 1 (fun _ => true)) (by decide) rfl (by decide) (by decide)
      rfl).1⟩

theorem cancelLoop_preserves (t : TorrentSession) (a : String)
    (addrs : List String) (piece block : Int) (ri : Nat) (now : Int) :
    (cancelLoop t a addrs piece block ri now).si = t.si ∧
    (cancelLoop t a addrs piece block ri now).activePieces =
      t.activePieces ∧
    (cancelLoop t a addrs piece block ri now).pieceSet = t.pieceSet := by
  induction addrs generalizing t with
  | nil => exact ⟨rfl, rfl, rfl⟩
  | cons q rest ih =>
    simp only [cancelLoop]
    split_ifs with h
    · exact ih _
    · exact ih t

theorem broadcastHave_preserves (t : TorrentSession) (addrs : List String)
    (piece : Nat) (now : Int) :
    (broadcastHave t addrs piece now).si = t.si ∧
    (broadcastHave t addrs piece now).activePieces = t.activePieces ∧
    (broadcastHave t addrs piece now).pieceSet = t.pieceSet := by
  induction addrs generalizing t with
  | nil => exact ⟨rfl, rfl, rfl⟩
  | cons q rest ih =>
    simp only [broadcastHave]
    split
    · exact ih t
    · split_ifs with h
      · exact ih t
      · exact ih _

/-- Counterexample to C7 as stated: a RecordBlock call for a piece with
no ActivePiece entry (the Duplicate branch of the source) leaves
Downloaded unchanged instead of adding length = 5. -/
theorem RecordBlock_duplicate_downloaded_unchanged :
    (sessionC7.RecordBlock "A" 0 0 5 0).si.downloaded = 0 ∧
      ¬ ((sessionC7.RecordBlock "A" 0 0 5 0).si.downloaded =
        sessionC7.si.downloaded + 5) := by
  constructor
  · rfl
  · intro h
    rw [show (sessionC7.RecordBlock "A" 0 0 5 0).si.downloaded = 0 from rfl]
      at h
    simp [sessionC7, baseSession] at h

/-- C7 amended: RecordBlock(peer, piece, begin, length) adds exactly
length to Downloaded when piece has an ActivePiece entry, and leaves
Downloaded unchanged when it does not (the Duplicate branch skips the
update). -/
theorem RecordBlock_downloaded (t : TorrentSession) (a : String)
    (piece beg length : Nat) (now : Int)
    (hin : ∀ v, alLookup t.activePieces (goInt32 piece) = some v →
      beg / STANDARD_BLOCK_LENGTH.toNat < v.downloaderCount.length) :
    (t.RecordBlock a piece beg length now).si.downloaded =
      t.si.downloaded +
        (if (alLookup t.activePieces (goInt32 piece)).isSome then
          (length : Int) else 0) := by
  rcases hv : alLookup t.activePieces (goInt32 piece) with _ | v
  · simp only [TorrentSession.RecordBlock, TorrentSession.setPeer]
    rw [hv]
    simp
  · simp only [TorrentSession.RecordBlock, TorrentSession.setPeer]
    rw [hv]
    simp only [Option.isSome_some, if_pos rfl]
    split_ifs with hc hcmp
    · exact ((broadcastHave_preserves _ _ _ _).1.symm ▸
        ((cancelLoop_preserves _ _ _ _ _ _ _).1.symm ▸ rfl))
    · exact (broadcastHave_preserves _ _ _ _).1.symm ▸ rfl
    · exact (cancelLoop_preserves _ _ _ _ _ _ _).1.symm ▸ rfl
    · rfl

/-- Witness for the amended C7: with an ActivePiece present, Downloaded
grows by exactly length = 5. -/
theorem RecordBlock_downloaded_witness :
    (∀ v, alLookup sessionC7w.activePieces (goInt32 0) = some v →
      0 / STANDARD_BLOCK_LENGTH.toNat < v.downloaderCount.length) ∧
    (sessionC7w.RecordBlock "A" 0 0 5 0).si.downloaded =
      sessionC7w.si.downloaded +
        (if (alLookup sessionC7w.activePieces (goInt32 0)).isSome then
          (5 : Int) else 0) :=
  ⟨fun v hv => by
      have h2 : some (ActivePiece.mk [0] 16384) = some v := hv
      cases h2
      decide,
    RecordBlock_downloaded sessionC7w "A" 0 0 5 0 (fun v hv => by
      have h2 : some (ActivePiece.mk [0] 16384) = some v := hv
      cases h2
      decide)⟩

theorem checkRangeGo_spec (t : TorrentSession) (p : PeerState)
    (fuel : Nat) (i : Int) :
    (checkRangeGo t p i fuel = -1 ∧
        ∀ j, i ≤ j → j < i + (fuel : Int) → ¬ goodPiece t p j) ∨
      (i ≤ checkRangeGo t p i fuel ∧
        checkRangeGo t p i fuel < i + (fuel : Int) ∧
        goodPiece t p (checkRangeGo t p i fuel) ∧
        ∀ j, i ≤ j → j < checkRangeGo t p i fuel → ¬ goodPiece t p j) := by
  induction fuel generalizing i with
  | zero =>
    left
    refine ⟨rfl, fun j hj1 hj2 => ?_⟩
    push_cast at hj2
    omega
  | succ fuel ih =>
    by_cases hgood : goodPiece t p i
    · right
      have hc : checkRangeGo t p i (fuel + 1) = i := by
        obtain ⟨h1, h2, h3⟩ := hgood
        simp [checkRangeGo, h1, h2, h3]
      rw [hc]
      exact ⟨le_refl i, by push_cast; omega, hgood,
        fun j hj1 hj2 => by omega⟩
    · have hc : checkRangeGo t p i (fuel + 1) =
          checkRangeGo t p (i + 1) fuel := by
        simp only [checkRangeGo]
        cases hs : t.pieceSet.isSet i with
        | true => simp
        | false =>
          cases hh : haveIsSet p i with
          | false => simp
          | true =>
            rcases hl : alLookup t.activePieces i with _ | v
            · exact absurd ⟨hs, hh, hl⟩ hgood
            · simp [hl]
      rw [hc]
      rcases ih (i + 1) with ⟨h1, h2⟩ | ⟨h1, h2, h3, h4⟩
      · left
        refine ⟨h1, fun j hj1 hj2 => ?_⟩
        rcases eq_or_lt_of_le hj1 with rfl | hj1s
        · exact hgood
        · exact h2 j (by omega) (by push_cast at hj2 ⊢; omega)
      · right
        refine ⟨by omega, by push_cast at h2 ⊢; omega, h3,
          fun j hj1 hj2 => ?_⟩
        rcases eq_or_lt_of_le hj1 with rfl | hj1s
        · exact hgood
        · exact h4 j (by omega) hj2

/-- C5: ChoosePiece(peer) with starting draw s in [0, N) returns the
first index i in the scan order [s, N) then [0, s) such that pieceSet[i]
is false, peer.have[i] is true and i is not an active piece, and -1 when
no index of [0, N) qualifies.  The embedding is a pure function of the
session and peer, so no session or peer state is modified. -/
theorem ChoosePiece_spec (t : TorrentSession) (p : PeerState) (s : Int)
    (h0 : 0 ≤ s) (h1 : s < t.totalPieces) :
    (t.ChoosePiece p s = -1 ∧
        ∀ j, 0 ≤ j → j < t.totalPieces → ¬ goodPiece t p j) ∨
      (0 ≤ t.ChoosePiece p s ∧ t.ChoosePiece p s < t.totalPieces ∧
        goodPiece t p (t.ChoosePiece p s) ∧
        ∀ j, 0 ≤ j → j < t.totalPieces → goodPiece t p j →
          rotPos s t.totalPieces (t.ChoosePiece p s) ≤
            rotPos s t.totalPieces j) := by
  have hfuel1 : s + ((t.totalPieces - s).toNat : Int) = t.totalPieces := by
    omega
  have hfuel2 : (0 : Int) + ((s - 0).toNat : Int) = s := by omega
  unfold TorrentSession.ChoosePiece TorrentSession.checkRange
  rcases checkRangeGo_spec t p (t.totalPieces - s).toNat s with
    ⟨e1, n1⟩ | ⟨r1a, r1b, r1c, r1d⟩
  · rw [e1, if_pos rfl]
    rcases checkRangeGo_spec t p (s - 0).toNat 0 with
      ⟨e2, n2⟩ | ⟨r2a, r2b, r2c, r2d⟩
    · left
      rw [e2]
      refine ⟨rfl, fun j hj1 hj2 hg => ?_⟩
      by_cases hjs : j < s
      · exact n2 j hj1 (by rw [hfuel2]; omega) hg
      · exact n1 j (by omega) (by rw [hfuel1]; omega) hg
    · right
      rw [hfuel2] at r2b
      refine ⟨by omega, by omega, r2c, fun j hj1 hj2 hg => ?_⟩
      have hjlt : j < s := by
        by_contra hge
        exact n1 j (by omega) (by rw [hfuel1]; omega) hg
      have hrs : ¬ (s ≤ checkRangeGo t p 0 (s - 0).toNat) := by omega
      rw [rotPos, if_neg hrs]
      by_cases hjs2 : s ≤ j
      · omega
      · rw [rotPos, if_neg hjs2]
        have := r2d j hj1
        by_contra hlt
        exact this (by omega) hg
  · rw [hfuel1] at r1b
    have hne : ¬ (checkRangeGo t p s (t.totalPieces - s).toNat = -1) := by
      omega
    rw [if_neg hne]
    right
    refine ⟨by omega, by omega, r1c, fun j hj1 hj2 hg => ?_⟩
    rw [rotPos, if_pos r1a]
    by_cases hjs : s ≤ j
    · rw [rotPos, if_pos hjs]
      have := r1d j hjs
      by_contra hlt
      exact this (by omega) hg
    · rw [rotPos, if_neg hjs]
      omega

/-- Witness for C5 at starting draw s = 1: the scan wraps from [1, 2) to
[0, 1) and lands on piece 0, the only piece the peer offers. -/
theorem ChoosePiece_spec_witness :
    ((0 : Int) ≤ 1 ∧ (1 : Int) < sessionC5.totalPieces) ∧
      ((sessionC5.ChoosePiece peerC5 1 = -1 ∧
          ∀ j, 0 ≤ j → j < sessionC5.totalPieces →
            ¬ goodPiece sessionC5 peerC5 j) ∨
        (0 ≤ sessionC5.ChoosePiece peerC5 1 ∧
          sessionC5.ChoosePiece peerC5 1 < sessionC5.totalPieces ∧
          goodPiece sessionC5 peerC5 (sessionC5.ChoosePiece peerC5 1) ∧
          ∀ j, 0 ≤ j → j < sessionC5.totalPieces →
            goodPiece sessionC5 peerC5 j →
            rotPos 1 sessionC5.totalPieces
                (sessionC5.ChoosePiece peerC5 1) ≤
              rotPos 1 sessionC5.totalPieces j)) :=
  ⟨⟨by decide, by decide⟩,
    ChoosePiece_spec sessionC5 peerC5 1 (by decide) (by decide)⟩

theorem removeRequest_fields (t : TorrentSession) (pi b : Int) :
    (t.removeRequest pi b).peers = t.peers ∧
    (t.removeRequest pi b).si = t.si ∧
    (t.removeRequest pi b).pieceSet = t.pieceSet := by
  unfold TorrentSession.removeRequest
  split
  · split_ifs <;> exact ⟨rfl, rfl, rfl⟩
  · exact ⟨rfl, rfl, rfl⟩

theorem removeRequest_apShape (t : TorrentSession) (pi0 b0 pi : Int) :
    apShape (t.removeRequest pi0 b0) pi = apShape t pi := by
  unfold TorrentSession.removeRequest
  split
  · rename_i v hv
    split_ifs with h1 h2
    · unfold apShape
      simp only [alLookup_insert]
      by_cases hp : pi = pi0
      · subst hp
        rw [if_pos rfl, hv]
        simp [modifyIdx_length]
      · rw [if_neg hp]
    · rfl
    · rfl
  · rfl

theorem removeRequest_apCount_other (t : TorrentSession) (pi0 b0 pi b : Int)
    (h : pi ≠ pi0 ∨ (0 ≤ b ∧ 0 ≤ b0 ∧ b ≠ b0)) :
    apCount (t.removeRequest pi0 b0) pi b = apCount t pi b := by
  unfold TorrentSession.removeRequest
  split
  · rename_i v hv
    split_ifs with h1 h2
    · unfold apCount
      simp only [alLookup_insert]
      by_cases hp : pi = pi0
      · subst hp
        rw [if_pos rfl, hv]
        rcases h with h | ⟨hb, hb0, hbb⟩
        · exact absurd rfl h
        · exact modifyIdx_getD_other _ _ _ _ (by omega) 0
      · rw [if_neg hp]
    · rfl
    · rfl
  · rfl

theorem removeRequest_apCount_same (t : TorrentSession) (pi b : Int)
    (v : ActivePiece) (hv : alLookup t.activePieces pi = some v)
    (hb : 0 ≤ b) (hlen : b.toNat < v.downloaderCount.length) :
    apCount (t.removeRequest pi b) pi b =
      if 0 < apCount t pi b then apCount t pi b - 1 else apCount t pi b
    := by
  have hcnt : apCount t pi b = v.downloaderCount.getD b.toNat 0 := by
    unfold apCount
    rw [hv]
  unfold TorrentSession.removeRequest
  split
  · rename_i v2 hv2
    have heq : some v = some v2 := hv.symm.trans hv2
    cases heq
    rw [if_pos ⟨hb, hlen⟩]
    by_cases h1 : 0 < v.downloaderCount.getD b.toNat 0
    · rw [if_pos h1, hcnt, if_pos h1]
      unfold apCount
      simp only [alLookup_insert]
      show (modifyIdx v.downloaderCount b.toNat fun x => x - 1).getD b.toNat
        0 = v.downloaderCount.getD b.toNat 0 - 1
      rw [modifyIdx_getD_same _ _ _ hlen 0]
    · rw [if_neg h1, hcnt, if_neg h1]
  · rename_i hv2
    rw [hv] at hv2
    cases hv2

theorem removeRequestsLoop_fields (keys : List Nat) (t : TorrentSession) :
    (removeRequestsLoop t keys).peers = t.peers ∧
    (removeRequestsLoop t keys).si = t.si ∧
    (removeRequestsLoop t keys).pieceSet = t.pieceSet := by
  induction keys generalizing t with
  | nil => exact ⟨rfl, rfl, rfl⟩
  | cons k rest ih =>
    simp only [removeRequestsLoop]
    obtain ⟨h1, h2, h3⟩ := removeRequest_fields t (keyPiece k) (keyBlock k)
    obtain ⟨g1, g2, g3⟩ := ih (t.removeRequest (keyPiece k) (keyBlock k))
    exact ⟨g1.trans h1, g2.trans h2, g3.trans h3⟩

theorem removeRequestsLoop_apShape (keys : List Nat) (t : TorrentSession)
    (pi : Int) :
    apShape (removeRequestsLoop t keys) pi = apShape t pi := by
  induction keys generalizing t with
  | nil => rfl
  | cons k rest ih =>
    simp only [removeRequestsLoop]
    exact (ih _).trans (removeRequest_apShape t _ _ pi)

theorem removeRequestsLoop_apCount_miss (keys : List Nat)
    (t : TorrentSession) (pi b : Int) (hb : 0 ≤ b)
    (hmiss : ∀ k ∈ keys, ¬(keyPiece k = pi ∧ keyBlock k = b))
    (hposall : ∀ k ∈ keys, 0 ≤ keyBlock k) :
    apCount (removeRequestsLoop t keys) pi b = apCount t pi b := by
  induction keys generalizing t with
  | nil => rfl
  | cons k rest ih =>
    simp only [removeRequestsLoop]
    have hstep : apCount (t.removeRequest (keyPiece k) (keyBlock k)) pi b =
        apCount t pi b := by
      apply removeRequest_apCount_other
      by_cases hp : keyPiece k = pi
      · right
        refine ⟨hb, hposall k (by simp), fun hbb => ?_⟩
        exact hmiss k (by simp) ⟨hp, hbb.symm⟩
      · left
        exact fun h => hp (h.symm)
    rw [ih _ (fun k2 h2 => hmiss k2 (by simp [h2]))
      (fun k2 h2 => hposall k2 (by simp [h2]))]
    exact hstep

theorem removeRequestsLoop_apCount_hit (keys : List Nat)
    (t : TorrentSession) (k0 : Nat)
    (hmem : k0 ∈ keys)
    (hnodup : keys.Nodup)
    (hdist : ∀ k1 ∈ keys, ∀ k2 ∈ keys, k1 ≠ k2 →
      ¬(keyPiece k1 = keyPiece k2 ∧ keyBlock k1 = keyBlock k2))
    (hposall : ∀ k ∈ keys, 0 ≤ keyBlock k)
    (hsome : (apShape t (keyPiece k0)).isSome = true)
    (hln : ∀ ln pl, apShape t (keyPiece k0) = some (ln, pl) →
      (keyBlock k0).toNat < ln) :
    apCount (removeRequestsLoop t keys) (keyPiece k0) (keyBlock k0) =
      if 0 < apCount t (keyPiece k0) (keyBlock k0) then
        apCount t (keyPiece k0) (keyBlock k0) - 1
      else apCount t (keyPiece k0) (keyBlock k0) := by
  induction keys generalizing t with
  | nil => cases hmem
  | cons k rest ih =>
    simp only [removeRequestsLoop]
    have hb0 : 0 ≤ keyBlock k0 := hposall k0 hmem
    rcases List.mem_cons.mp hmem with rfl | hmem2
    · have hk0rest : k0 ∉ rest := (List.nodup_cons.mp hnodup).1
      rcases hv : alLookup t.activePieces (keyPiece k0) with _ | v
      · rw [apShape, hv] at hsome
        cases hsome
      · have hlenv : (keyBlock k0).toNat < v.downloaderCount.length := by
          apply hln v.downloaderCount.length v.pieceLength
          rw [apShape, hv]
          rfl
        rw [removeRequestsLoop_apCount_miss rest _ _ _ hb0
          (fun k2 h2 => by
            have hne : k2 ≠ k0 := fun he => hk0rest (he ▸ h2)
            exact hdist k2 (by simp [h2]) k0 (by simp) hne)
          (fun k2 h2 => hposall k2 (by simp [h2]))]
        exact removeRequest_apCount_same t _ _ v hv hb0 hlenv
    · have hkne : k ≠ k0 := by
        intro he
        exact (List.nodup_cons.mp hnodup).1 (he ▸ hmem2)
      have hstep : apCount (t.removeRequest (keyPiece k) (keyBlock k))
          (keyPiece k0) (keyBlock k0) =
          apCount t (keyPiece k0) (keyBlock k0) := by
        apply removeRequest_apCount_other
        have hd := hdist k (by simp) k0 (by simp [hmem2]) hkne
        by_cases hp : keyPiece k = keyPiece k0
        · right
          refine ⟨hb0, hposall k (by simp), fun hbb => ?_⟩
          exact hd ⟨hp, hbb.symm⟩
        · left
          exact fun h => hp h.symm
      rw [← hstep]
      rw [ih _ hmem2 (List.nodup_cons.mp hnodup).2
        (fun k1 h1 k2 h2 hne =>
          hdist k1 (by simp [h1]) k2 (by simp [h2]) hne)
        (fun k2 h2 => hposall k2 (by simp [h2]))
        (by rw [removeRequest_apShape]; exact hsome)
        (fun ln pl he => hln ln pl (by
          rw [← removeRequest_apShape t (keyPiece k) (keyBlock k)]
          exact he))]

theorem getPeer_removeRequestsLoop (keys : List Nat) (t : TorrentSession)
    (q : String) :
    (removeRequestsLoop t keys).getPeer q = t.getPeer q := by
  unfold TorrentSession.getPeer
  rw [(removeRequestsLoop_fields keys t).1]

theorem doChoke_spec (t : TorrentSession) (a : String)
    (hnodup : ((t.getPeer a).our_requests.map Prod.fst).Nodup)
    (hdist : ∀ k1 ∈ (t.getPeer a).our_requests.map Prod.fst,
      ∀ k2 ∈ (t.getPeer a).our_requests.map Prod.fst, k1 ≠ k2 →
      ¬(keyPiece k1 = keyPiece k2 ∧ keyBlock k1 = keyBlock k2))
    (hposall : ∀ k ∈ (t.getPeer a).our_requests.map Prod.fst,
      0 ≤ keyBlock k) :
    ((t.doChoke a).getPeer a).peer_choking = true ∧
    ((t.doChoke a).getPeer a).our_requests = [] ∧
    (∀ q, ((t.doChoke a).getPeer q).outbox = (t.getPeer q).outbox) ∧
    (∀ pi, apShape (t.doChoke a) pi = apShape t pi) ∧
    (∀ k ∈ (t.getPeer a).our_requests.map Prod.fst,
      (apShape t (keyPiece k)).isSome = true →
      (∀ ln pl, apShape t (keyPiece k) = some (ln, pl) →
        (keyBlock k).toNat < ln) →
      apCount (t.doChoke a) (keyPiece k) (keyBlock k) =
        if 0 < apCount t (keyPiece k) (keyBlock k) then
          apCount t (keyPiece k) (keyBlock k) - 1
        else apCount t (keyPiece k) (keyBlock k)) := by
  have hga : (t.setPeer a { t.getPeer a with peer_choking := true
      }).getPeer a = { t.getPeer a with peer_choking := true } := by
    rw [getPeer_setPeer, if_pos rfl]
  have hdc : t.doChoke a =
      (removeRequestsLoop (t.setPeer a { t.getPeer a with
          peer_choking := true })
        ((t.getPeer a).our_requests.map Prod.fst)).setPeer a
        { (removeRequestsLoop (t.setPeer a { t.getPeer a with
            peer_choking := true })
          ((t.getPeer a).our_requests.map Prod.fst)).getPeer a with
          our_requests := [] } := by
    unfold TorrentSession.doChoke TorrentSession.removeRequests
    rw [hga]
  have hg3 : ∀ q, (removeRequestsLoop (t.setPeer a { t.getPeer a with
      peer_choking := true })
      ((t.getPeer a).our_requests.map Prod.fst)).getPeer q =
      (t.setPeer a { t.getPeer a with peer_choking := true }).getPeer q :=
    fun q => getPeer_removeRequestsLoop _ _ q
  refine ⟨?_, ?_, ?_, ?_, ?_⟩
  · rw [hdc, getPeer_setPeer, if_pos rfl, hg3 a, hga]
  · rw [hdc, getPeer_setPeer, if_pos rfl]
  · intro q
    rw [hdc, getPeer_setPeer]
    by_cases hq : q = a
    · subst hq
      rw [if_pos rfl]
      show ((removeRequestsLoop _ _).getPeer q).outbox = _
      rw [hg3 q, hga]
    · rw [if_neg hq, hg3 q, getPeer_setPeer, if_neg hq]
  · intro pi
    rw [hdc]
    exact removeRequestsLoop_apShape _ _ pi
  · intro k hk hsome hln
    rw [hdc]
    exact removeRequestsLoop_apCount_hit _ _ k hk hnodup hdist hposall
      hsome hln

theorem choke_core (t : TorrentSession) (a : String) (p2 : PeerState)
    (hor : p2.our_requests = (t.getPeer a).our_requests)
    (hob : p2.outbox = (t.getPeer a).outbox)
    (hnodup : ((t.getPeer a).our_requests.map Prod.fst).Nodup)
    (hdist : ∀ k1 ∈ (t.getPeer a).our_requests.map Prod.fst,
      ∀ k2 ∈ (t.getPeer a).our_requests.map Prod.fst, k1 ≠ k2 →
      ¬(keyPiece k1 = keyPiece k2 ∧ keyBlock k1 = keyBlock k2))
    (hposall : ∀ k ∈ (t.getPeer a).our_requests.map Prod.fst,
      0 ≤ keyBlock k) :
    (((t.setPeer a p2).doChoke a).getPeer a).peer_choking = true ∧
    (((t.setPeer a p2).doChoke a).getPeer a).our_requests = [] ∧
    (∀ q, (((t.setPeer a p2).doChoke a).getPeer q).outbox =
      (t.getPeer q).outbox) ∧
    (∀ k ∈ (t.getPeer a).our_requests.map Prod.fst,
      (apShape t (keyPiece k)).isSome = true →
      (∀ ln pl, apShape t (keyPiece k) = some (ln, pl) →
        (keyBlock k).toNat < ln) →
      apCount ((t.setPeer a p2).doChoke a) (keyPiece k) (keyBlock k) =
        if 0 < apCount t (keyPiece k) (keyBlock k) then
          apCount t (keyPiece k) (keyBlock k) - 1
        else apCount t (keyPiece k) (keyBlock k)) := by
  have hga : (t.setPeer a p2).getPeer a = p2 := by
    rw [getPeer_setPeer, if_pos rfl]
  have hreq : ((t.setPeer a p2).getPeer a).our_requests.map Prod.fst =
      (t.getPeer a).our_requests.map Prod.fst := by rw [hga, hor]
  obtain ⟨c1, c2, c3, c4, c5⟩ := doChoke_spec (t.setPeer a p2) a
    (hreq ▸ hnodup)
    (fun k1 h1 k2 h2 hne => hdist k1 (hreq ▸ h1) k2 (hreq ▸ h2) hne)
    (fun k hk => hposall k (hreq ▸ hk))
  refine ⟨c1, c2, fun q => ?_, fun k hk hsome hln => ?_⟩
  · rw [c3 q, getPeer_setPeer]
    by_cases hq : q = a
    · subst hq
      rw [if_pos rfl, hob]
    · rw [if_neg hq]
  · exact c5 k (hreq ▸ hk) hsome hln

/-- C4: a choke message (opcode 0) sets peer_choking, returns each
outstanding request key (piece shifted left 32 bits or-ed with begin)
whose piece has an ActivePiece entry by decrementing that block's counter
— a counter equal to 0 stays 0 and a counter equal to -1 stays -1 —
leaves our_requests empty, sends no message (in particular no cancel) to
any peer, and returns no error.  The key hypotheses confine the request
keys to the well-formed region the scheduler produces: pairwise distinct
(piece, block) slots, nonnegative block decode, and blocks in range of
the counter vector wherever the piece is active (out of range the source
panics). -/
theorem DoMessage_choke_spec (t : TorrentSession) (a : String)
    (rands : List Int) (now : Int)
    (hid : (t.getPeer a).id.length ≠ 0)
    (hnodup : ((t.getPeer a).our_requests.map Prod.fst).Nodup)
    (hdist : ∀ k1 ∈ (t.getPeer a).our_requests.map Prod.fst,
      ∀ k2 ∈ (t.getPeer a).our_requests.map Prod.fst, k1 ≠ k2 →
      ¬(keyPiece k1 = keyPiece k2 ∧ keyBlock k1 = keyBlock k2))
    (hposall : ∀ k ∈ (t.getPeer a).our_requests.map Prod.fst,
      0 ≤ keyBlock k) :
    (t.DoMessage a (some [0]) rands now).2 = none ∧
    ((t.DoMessage a (some [0]) rands now).1.getPeer a).peer_choking =
      true ∧
    ((t.DoMessage a (some [0]) rands now).1.getPeer a).our_requests =
      [] ∧
    (∀ q, ((t.DoMessage a (some [0]) rands now).1.getPeer q).outbox =
      (t.getPeer q).outbox) ∧
    (∀ k ∈ (t.getPeer a).our_requests.map Prod.fst,
      (apShape t (keyPiece k)).isSome = true →
      (∀ ln pl, apShape t (keyPiece k) = some (ln, pl) →
        (keyBlock k).toNat < ln) →
      apCount (t.DoMessage a (some [0]) rands now).1 (keyPiece k)
          (keyBlock k) =
        if 0 < apCount t (keyPiece k) (keyBlock k) then
          apCount t (keyPiece k) (keyBlock k) - 1
        else apCount t (keyPiece k) (keyBlock k)) := by
  by_cases hhb : (t.getPeer a).haveBits.isNone = true
  · have hred : t.DoMessage a (some [0]) rands now =
        ((t.setPeer a { t.getPeer a with
          haveBits := some (NewBitset t.totalPieces) }).doChoke a, none)
        := by
      simp [TorrentSession.DoMessage, hid, hhb]
    obtain ⟨c1, c2, c3, c4⟩ := choke_core t a
      { t.getPeer a with haveBits := some (NewBitset t.totalPieces) }
      rfl rfl hnodup hdist hposall
    rw [hred]
    exact ⟨rfl, c1, c2, c3, c4⟩
  · have hred : t.DoMessage a (some [0]) rands now =
        ((t.setPeer a (t.getPeer a)).doChoke a, none) := by
      simp [TorrentSession.DoMessage, hid, hhb]
    obtain ⟨c1, c2, c3, c4⟩ := choke_core t a (t.getPeer a)
      rfl rfl hnodup hdist hposall
    rw [hred]
    exact ⟨rfl, c1, c2, c3, c4⟩

/-- Witness for C4: choking returns blocks 0 and 1 of piece 0; counter 2
drops to 1, counter 0 stays 0. -/
theorem DoMessage_choke_spec_witness :
    ((sessionC4.getPeer "A").id.length ≠ 0) ∧
      ((sessionC4.DoMessage "A" (some [0]) [] 0).2 = none ∧
      ((sessionC4.DoMessage "A" (some [0]) [] 0).1.getPeer
        "A").peer_choking = true ∧
      ((sessionC4.DoMessage "A" (some [0]) [] 0).1.getPeer
        "A").our_requests = [] ∧
      (∀ q, ((sessionC4.DoMessage "A" (some [0]) [] 0).1.getPeer q).outbox
        = (sessionC4.getPeer q).outbox) ∧
      (∀ k ∈ (sessionC4.getPeer "A").our_requests.map Prod.fst,
        (apShape sessionC4 (keyPiece k)).isSome = true →
        (∀ ln pl, apShape sessionC4 (keyPiece k) = some (ln, pl) →
          (keyBlock k).toNat < ln) →
        apCount (sessionC4.DoMessage "A" (some [0]) [] 0).1 (keyPiece k)
            (keyBlock k) =
          if 0 < apCount sessionC4 (keyPiece k) (keyBlock k) then
            apCount sessionC4 (keyPiece k) (keyBlock k) - 1
          else apCount sessionC4 (keyPiece k) (keyBlock k))) :=
  ⟨by decide,
    DoMessage_choke_spec sessionC4 "A" [] 0 (by decide) (by decide)
      (by decide) (by decide)⟩

theorem sendRequest_spec (t : TorrentSession) (a : String)
    (index beg length : Nat) (now : Int) :
    ((t.getPeer a).am_choking = true →
      t.sendRequest a index beg length now = t) ∧
    ((t.getPeer a).am_choking = false →
      (t.sendRequest a index beg length now).si.uploaded =
        t.si.uploaded + STANDARD_BLOCK_LENGTH ∧
      ((t.sendRequest a index beg length now).getPeer a).outbox =
        (t.getPeer a).outbox ++
          [7 :: (uint32ToBytes index ++ uint32ToBytes beg ++
            storeReadAt t.fileStore length
              ((index : Int) * t.infoPieceLength + (beg : Int)))]) := by
  constructor
  · intro h
    simp [TorrentSession.sendRequest, h]
  · intro h
    constructor
    · simp [TorrentSession.sendRequest, h, TorrentSession.setPeer]
    · simp only [TorrentSession.sendRequest, h, Bool.not_false, if_true,
        eq_self_iff_true]
      simp [TorrentSession.getPeer, TorrentSession.setPeer,
        alLookup_insert, sendMessage]

/-- C8: whenever the opcode-6 request handler actually serves a block (a
piece message is appended to the peer's outbox), the requested length
field equals STANDARD_BLOCK_LENGTH — the handler rejects any other
length — and Uploaded grows by exactly that length (the source adds the
constant, which is extensionally the same); when the peer is choked or
any check fails, nothing is sent and Uploaded is unchanged. -/
theorem DoMessage_request_uploaded (t : TorrentSession) (a : String)
    (idx beg len : Nat) (rands : List Int) (now : Int)
    (hid : (t.getPeer a).id.length ≠ 0)
    (h32 : idx < 2 ^ 32) (hb32 : beg < 2 ^ 32) (hl32 : len < 2 ^ 32) :
    ∀ t2 err, t.DoMessage a (some (6 :: (uint32ToBytes idx ++
      (uint32ToBytes beg ++ uint32ToBytes len)))) rands now = (t2, err) →
      (((t2.getPeer a).outbox ≠ (t.getPeer a).outbox →
        (len : Int) = STANDARD_BLOCK_LENGTH ∧
        t2.si.uploaded = t.si.uploaded + (len : Int)) ∧
      ((t2.getPeer a).outbox = (t.getPeer a).outbox →
        t2.si.uploaded = t.si.uploaded)) := by
  have hm13 : (6 :: (uint32ToBytes idx ++ (uint32ToBytes beg ++
      uint32ToBytes len))).length = 13 := by simp [uint32ToBytes]
  have hix : bytesToUint32 (uint32ToBytes idx ++ (uint32ToBytes beg ++
      uint32ToBytes len)) = idx := by
    rw [bytesToUint32_firstFour, bytesToUint32_uint32ToBytes idx h32]
  have hbg : bytesToUint32 (uint32ToBytes beg ++ uint32ToBytes len) = beg
      := by
    rw [bytesToUint32_firstFour, bytesToUint32_uint32ToBytes beg hb32]
  have hln : bytesToUint32 (uint32ToBytes len) = len :=
    bytesToUint32_uint32ToBytes len hl32
  have hdrop5 : (6 :: (uint32ToBytes idx ++ (uint32ToBytes beg ++
      uint32ToBytes len))).drop 5 = uint32ToBytes beg ++ uint32ToBytes len
      := by simp [uint32ToBytes]
  have hdrop9 : (6 :: (uint32ToBytes idx ++ (uint32ToBytes beg ++
      uint32ToBytes len))).drop 9 = uint32ToBytes len := by
    simp [uint32ToBytes]
  intro t2 err heq
  by_cases hhb : (t.getPeer a).haveBits.isNone = true
  · simp only [TorrentSession.DoMessage, if_neg hid, Option.getD_some,
      List.getD_cons_zero, hm13, hhb, hdrop5, hdrop9] at heq
    norm_num at heq
    rw [hix, hbg, hln] at heq
    split_ifs at heq with h1 h2 h3 h4 h5
    · injection heq with ht he
      subst ht
      exact ⟨fun hne => absurd (by simp [getPeer_setPeer]) hne, fun _ => rfl⟩
    · injection heq with ht he
      subst ht
      exact ⟨fun hne => absurd (by simp [getPeer_setPeer]) hne, fun _ => rfl⟩
    · injection heq with ht he
      subst ht
      exact ⟨fun hne => absurd (by simp [getPeer_setPeer]) hne, fun _ => rfl⟩
    · injection heq with ht he
      subst ht
      exact ⟨fun hne => absurd (by simp [getPeer_setPeer]) hne, fun _ => rfl⟩
    · injection heq with ht he
      subst ht
      have hB : (len : Int) = STANDARD_BLOCK_LENGTH := h5
      have hgp : ((t.setPeer a { t.getPeer a with haveBits := some (NewBitset t.totalPieces) }).getPeer a) = { t.getPeer a with haveBits := some (NewBitset t.totalPieces) } := by rw [getPeer_setPeer, if_pos rfl]
      by_cases hch : (t.getPeer a).am_choking = true
      · have hstop := (sendRequest_spec (t.setPeer a { t.getPeer a with haveBits := some (NewBitset t.totalPieces) }) a idx beg len now).1 (by rw [hgp]; exact hch)
        rw [hstop]
        exact ⟨fun hne => absurd (by simp [getPeer_setPeer]) hne, fun _ => rfl⟩
      · have hfalse : ((t.setPeer a { t.getPeer a with haveBits := some (NewBitset t.totalPieces) }).getPeer a).am_choking = false := by rw [hgp]; exact Bool.eq_false_iff.mpr hch
        obtain ⟨hu, hob⟩ := (sendRequest_spec (t.setPeer a { t.getPeer a with haveBits := some (NewBitset t.totalPieces) }) a idx beg len now).2 hfalse
        constructor
        · intro hne
          refine ⟨hB, ?_⟩
          rw [hu, hB]
          rfl
        · intro heq2
          rw [hob] at heq2
          have hl2 := congrArg List.length heq2
          simp [hgp] at hl2
    · injection heq with ht he
      subst ht
      exact ⟨fun hne => absurd (by simp [getPeer_setPeer]) hne, fun _ => rfl⟩
  · obtain ⟨hb, hsome⟩ : ∃ hb, (t.getPeer a).haveBits = some hb := by
      cases hx : (t.getPeer a).haveBits with
      | none => rw [hx] at hhb; simp at hhb
      | some b => exact ⟨b, rfl⟩
    simp only [TorrentSession.DoMessage, if_neg hid, Option.getD_some,
      List.getD_cons_zero, hm13, hdrop5, hdrop9] at heq
    norm_num [hhb] at heq
    rw [hix, hbg, hln] at heq
    split at heq
    · rename_i hno
      rw [hsome] at hno
      cases hno
    rename_i hb2 hsome2
    split_ifs at heq with h1 h2 h3 h4 h5
    · injection heq with ht he
      subst ht
      exact ⟨fun hne => absurd (by simp [getPeer_setPeer]) hne, fun _ => rfl⟩
    · injection heq with ht he
      subst ht
      exact ⟨fun hne => absurd (by simp [getPeer_setPeer]) hne, fun _ => rfl⟩
    · injection heq with ht he
      subst ht
      exact ⟨fun hne => absurd (by simp [getPeer_setPeer]) hne, fun _ => rfl⟩
    · injection heq with ht he
      subst ht
      exact ⟨fun hne => absurd (by simp [getPeer_setPeer]) hne, fun _ => rfl⟩
    · injection heq with ht he
      subst ht
      have hB : (len : Int) = STANDARD_BLOCK_LENGTH := h5
      have hgp : ((t.setPeer a (t.getPeer a)).getPeer a) = (t.getPeer a) := by rw [getPeer_setPeer, if_pos rfl]
      by_cases hch : (t.getPeer a).am_choking = true
      · have hstop := (sendRequest_spec (t.setPeer a (t.getPeer a)) a idx beg len now).1 (by rw [hgp]; exact hch)
        rw [hstop]
        exact ⟨fun hne => absurd (by simp [getPeer_setPeer]) hne, fun _ => rfl⟩
      · have hfalse : ((t.setPeer a (t.getPeer a)).getPeer a).am_choking = false := by rw [hgp]; exact Bool.eq_false_iff.mpr hch
        obtain ⟨hu, hob⟩ := (sendRequest_spec (t.setPeer a (t.getPeer a)) a idx beg len now).2 hfalse
        constructor
        · intro hne
          refine ⟨hB, ?_⟩
          rw [hu, hB]
          rfl
        · intro heq2
          rw [hob] at heq2
          have hl2 := congrArg List.length heq2
          simp [hgp] at hl2
    · injection heq with ht he
      subst ht
      exact ⟨fun hne => absurd (by simp [getPeer_setPeer]) hne, fun _ => rfl⟩

/-- Witness for C8: a request with length field 5 fails the length check,
so no piece message is sent and Uploaded is unchanged. -/
theorem DoMessage_request_uploaded_witness :
    ((sessionC8.getPeer "A").id.length ≠ 0) ∧
      (sessionC8.DoMessage "A" (some (6 :: (uint32ToBytes 0 ++
        (uint32ToBytes 0 ++ uint32ToBytes 5)))) [] 0).1.si.uploaded =
        sessionC8.si.uploaded :=
  ⟨by decide,
    (DoMessage_request_uploaded sessionC8 "A" 0 0 5 [] 0 (by decide)
      (by decide) (by decide) (by decide)
      (sessionC8.DoMessage "A" (some (6 :: (uint32ToBytes 0 ++
        (uint32ToBytes 0 ++ uint32ToBytes 5)))) [] 0).1
      (sessionC8.DoMessage "A" (some (6 :: (uint32ToBytes 0 ++
        (uint32ToBytes 0 ++ uint32ToBytes 5)))) [] 0).2 rfl).2 (by decide)⟩

/-- Counterexample to C6 as stated: two unchoke messages without an
intervening choke issue four requests, so our_requests reaches 4 entries
and the request issued through requestBlockImp grows the map beyond
MAX_OUR_REQUESTS = 2. -/
theorem unchoke_twice_exceeds_max :
    (((sessionC6.DoMessage "A" (some [1]) [0] 0).1.DoMessage "A"
      (some [1]) [0] 0).1.getPeer "A").our_requests.length = 4 ∧
      ¬ (4 ≤ MAX_OUR_REQUESTS) := by
  constructor
  · decide
  · decide

theorem alInsert_length {κ ν : Type} [DecidableEq κ] (l : List (κ × ν))
    (k : κ) (v : ν) : (alInsert l k v).length ≤ l.length + 1 := by
  induction l with
  | nil => simp [alInsert]
  | cons kv rest ih =>
    obtain ⟨k0, v0⟩ := kv
    by_cases h : k = k0 <;> simp [alInsert, h] <;> omega

theorem alErase_length {κ ν : Type} [DecidableEq κ] (l : List (κ × ν))
    (k : κ) : (alErase l k).length ≤ l.length :=
  List.length_filter_le _ _

/-- Issuing or cancelling one request moves our_requests by at most one
entry. -/
theorem requestBlockImp_reqlen (t : TorrentSession) (a : String)
    (piece block : Int) (request : Bool) (now : Int) :
    ((t.requestBlockImp a piece block request now).getPeer
      a).our_requests.length ≤ (t.getPeer a).our_requests.length + 1 := by
  simp only [TorrentSession.requestBlockImp, getPeer_setPeer, if_pos,
    sendMessage]
  split_ifs
  · exact alInsert_length _ _ _
  · exact le_trans (alErase_length _ _) (Nat.le_succ _)

/-- An EOF return from RequestBlock2 leaves the session untouched. -/
theorem RequestBlock2_eof (t : TorrentSession) (a : String) (piece : Int)
    (eg : Bool) (now : Int) :
    ∀ t2, t.RequestBlock2 a piece eg now = (t2, true) → t2 = t := by
  intro t2 heq
  unfold TorrentSession.RequestBlock2 at heq
  split at heq
  · dsimp only at heq
    split_ifs at heq with hblk
    · injection heq with h1 h2
      exact absurd h2 (by simp)
    · injection heq with h1 h2
      exact h1.symm
  · injection heq with h1 h2
    exact h1.symm

theorem RequestBlock2_reqlen (t : TorrentSession) (a : String)
    (piece : Int) (eg : Bool) (now : Int) :
    ∀ t2 f, t.RequestBlock2 a piece eg now = (t2, f) →
      (t2.getPeer a).our_requests.length ≤
        (t.getPeer a).our_requests.length + 1 := by
  intro t2 f heq
  unfold TorrentSession.RequestBlock2 at heq
  split at heq
  · dsimp only at heq
    split_ifs at heq with hblk
    · injection heq with h1 h2
      subst h1
      exact requestBlockImp_reqlen _ a piece _ true now
    · injection heq with h1 h2
      subst h1
      exact Nat.le_succ _
  · injection heq with h1 h2
    subst h1
    exact Nat.le_succ _

theorem RequestBlock2_fst_reqlen (t : TorrentSession) (a : String)
    (piece : Int) (eg : Bool) (now : Int) :
    (((t.RequestBlock2 a piece eg now).1).getPeer
      a).our_requests.length ≤ (t.getPeer a).our_requests.length + 1 :=
  RequestBlock2_reqlen t a piece eg now _ _ rfl

/-- A loop over active pieces that issues no request leaves the session
untouched: every RequestBlock2 call along it returned EOF. -/
theorem tryActivePieces_false (a : String) (eg : Bool) (now : Int) :
    ∀ (keys : List Int) (t : TorrentSession) t2,
      t.tryActivePieces a keys eg now = (t2, false) → t2 = t := by
  intro keys
  induction keys with
  | nil =>
    intro t t2 heq
    unfold TorrentSession.tryActivePieces at heq
    injection heq with h1 h2
    exact h1.symm
  | cons k rest ih =>
    intro t t2 heq
    unfold TorrentSession.tryActivePieces at heq
    split at heq
    · rcases hr : t.RequestBlock2 a k eg now with ⟨t1, f1⟩
      rw [hr] at heq
      dsimp only at heq
      split_ifs at heq with hf1
      · have ht1 : t1 = t := RequestBlock2_eof t a k eg now t1
          (by rw [hr, hf1])
        rw [ht1] at heq
        exact ih t t2 heq
      · injection heq with h1 h2
        exact absurd h2.symm (by simp)
    · exact ih t t2 heq

theorem tryActivePieces_reqlen (a : String) (eg : Bool) (now : Int) :
    ∀ (keys : List Int) (t : TorrentSession) t2 f,
      t.tryActivePieces a keys eg now = (t2, f) →
      (t2.getPeer a).our_requests.length ≤
        (t.getPeer a).our_requests.length + 1 := by
  intro keys
  induction keys with
  | nil =>
    intro t t2 f heq
    unfold TorrentSession.tryActivePieces at heq
    injection heq with h1 h2
    subst h1
    exact Nat.le_succ _
  | cons k rest ih =>
    intro t t2 f heq
    unfold TorrentSession.tryActivePieces at heq
    split at heq
    · rcases hr : t.RequestBlock2 a k eg now with ⟨t1, f1⟩
      rw [hr] at heq
      dsimp only at heq
      split_ifs at heq with hf1
      · have ht1 : t1 = t := RequestBlock2_eof t a k eg now t1
          (by rw [hr, hf1])
        rw [ht1] at heq
        exact ih t t2 f heq
      · injection heq with h1 h2
        subst h1
        exact RequestBlock2_reqlen t a k eg now t1 f1 hr
    · exact ih t t2 f heq

theorem tryActivePieces_fst_reqlen (t : TorrentSession) (a : String)
    (keys : List Int) (eg : Bool) (now : Int) :
    (((t.tryActivePieces a keys eg now).1).getPeer
      a).our_requests.length ≤
      (t.getPeer a).our_requests.length + 1 :=
  tryActivePieces_reqlen a eg now keys t _ _ rfl

theorem tryActivePieces_fst_false (t : TorrentSession) (a : String)
    (keys : List Int) (eg : Bool) (now : Int)
    (h : (t.tryActivePieces a keys eg now).2 = false) :
    (t.tryActivePieces a keys eg now).1 = t :=
  tryActivePieces_false a eg now keys t _ (by rw [← h])

/-- SetInterested only toggles am_interested and appends a message. -/
theorem SetInterested_our_requests (p : PeerState) (b : Bool) (now : Int) :
    (SetInterested p b now).our_requests = p.our_requests := by
  unfold SetInterested sendMessage
  split_ifs <;> rfl

/-- One RequestBlock call grows our_requests by at most one entry: every
branch issues at most one request through requestBlockImp. -/
theorem RequestBlock_fst_reqlen (t : TorrentSession) (a : String)
    (start now : Int) :
    (((t.RequestBlock a start now).1).getPeer a).our_requests.length ≤
      (t.getPeer a).our_requests.length + 1 := by
  unfold TorrentSession.RequestBlock
  dsimp only
  split_ifs with hf1 hpc hf3
  · exact tryActivePieces_fst_reqlen t a _ false now
  · have hfalse1 := tryActivePieces_fst_false t a
      (List.map Prod.fst t.activePieces) false now
      (Bool.eq_false_iff.mpr hf1)
    rw [hfalse1]
    exact tryActivePieces_fst_reqlen t a _ true now
  · have hfalse1 := tryActivePieces_fst_false t a
      (List.map Prod.fst t.activePieces) false now
      (Bool.eq_false_iff.mpr hf1)
    rw [hfalse1] at hf3 ⊢
    have hfalse3 := tryActivePieces_fst_false t a
      (List.map Prod.fst t.activePieces) true now
      (Bool.eq_false_iff.mpr hf3)
    rw [hfalse3, getPeer_setPeer, if_pos rfl, SetInterested_our_requests]
    exact Nat.le_succ _
  all_goals
    have hfalse1 := tryActivePieces_fst_false t a
      (List.map Prod.fst t.activePieces) false now
      (Bool.eq_false_iff.mpr hf1)
  all_goals rw [hfalse1]
  all_goals exact RequestBlock2_fst_reqlen _ a _ false now

/-- The unchoke request loop grows our_requests by at most fuel entries:
one per RequestBlock iteration. -/
theorem unchokeLoop_reqlen (a : String) (now : Int) :
    ∀ (fuel : Nat) (t : TorrentSession) (rands : List Int) t2 e,
      unchokeLoop t a rands now fuel = (t2, e) →
      (t2.getPeer a).our_requests.length ≤
        (t.getPeer a).our_requests.length + fuel := by
  intro fuel
  induction fuel with
  | zero =>
    intro t rands t2 e heq
    unfold unchokeLoop at heq
    injection heq with h1 h2
    subst h1
    exact Nat.le_refl _
  | succ n ih =>
    intro t rands t2 e heq
    unfold unchokeLoop at heq
    rcases hr : t.RequestBlock a (rands.getD 0 0) now with ⟨t1, e1⟩
    rw [hr] at heq
    dsimp only at heq
    have hRB := RequestBlock_fst_reqlen t a (rands.getD 0 0) now
    rw [hr] at hRB
    dsimp only at hRB
    cases e1 with
    | none =>
      dsimp only at heq
      have hrec := ih t1 (rands.drop 1) t2 e heq
      omega
    | some err =>
      dsimp only at heq
      injection heq with h1 h2
      subst h1
      omega

/-- C6 (amended): an unchoke message (opcode 1) grows the receiving
peer's our_requests map by at most MAX_OUR_REQUESTS = 2 entries — the
handler calls RequestBlock at most MAX_OUR_REQUESTS times and each call
issues at most one request.  The constant is a per-message request
budget, not a cap on the map size: repeated unchokes without an
intervening choke accumulate (unchoke_twice_exceeds_max). -/
theorem DoMessage_unchoke_bound (t : TorrentSession) (a : String)
    (rands : List Int) (now : Int)
    (hid : (t.getPeer a).id.length ≠ 0) :
    ∀ t2 e, t.DoMessage a (some [1]) rands now = (t2, e) →
      (t2.getPeer a).our_requests.length ≤
        (t.getPeer a).our_requests.length + MAX_OUR_REQUESTS := by
  intro t2 e heq
  by_cases hhb : (t.getPeer a).haveBits.isNone = true
  · have hred : t.DoMessage a (some [1]) rands now =
        unchokeLoop ((t.setPeer a { t.getPeer a with
            haveBits := some (NewBitset t.totalPieces) }).setPeer a
          { t.getPeer a with
            haveBits := some (NewBitset t.totalPieces),
            peer_choking := false }) a rands now MAX_OUR_REQUESTS := by
      simp [TorrentSession.DoMessage, hid, hhb]
    rw [hred] at heq
    have h1 := unchokeLoop_reqlen a now MAX_OUR_REQUESTS _ rands t2 e heq
    rw [getPeer_setPeer, if_pos rfl] at h1
    exact h1
  · have hred : t.DoMessage a (some [1]) rands now =
        unchokeLoop ((t.setPeer a (t.getPeer a)).setPeer a
          { t.getPeer a with peer_choking := false }) a rands now
          MAX_OUR_REQUESTS := by
      simp [TorrentSession.DoMessage, hid, hhb]
    rw [hred] at heq
    have h1 := unchokeLoop_reqlen a now MAX_OUR_REQUESTS _ rands t2 e heq
    rw [getPeer_setPeer, if_pos rfl] at h1
    exact h1

/-- Witness for the amended C6 bound: sessionC6 starts with an empty
our_requests map and a single unchoke leaves at most two entries. -/
theorem DoMessage_unchoke_bound_witness :
    (sessionC6.getPeer "A").id.length ≠ 0 ∧
    ((sessionC6.DoMessage "A" (some [1]) [0] 0).1.getPeer
      "A").our_requests.length ≤
      (sessionC6.getPeer "A").our_requests.length + MAX_OUR_REQUESTS :=
  ⟨by decide, DoMessage_unchoke_bound sessionC6 "A" [0] 0 (by decide)
    _ _ rfl⟩

/-- The invariant only reads pieceSet and activePieces. -/
theorem disjointInv_congr (t1 t2 : TorrentSession)
    (hps : t2.pieceSet = t1.pieceSet)
    (hap : t2.activePieces = t1.activePieces)
    (h : disjointInv t1) : disjointInv t2 := by
  intro p hp
  rw [hap]
  exact h p (by rw [← hps]; exact hp)

theorem disjointInv_setPeer (t : TorrentSession) (a : String)
    (p : PeerState) (h : disjointInv t) : disjointInv (t.setPeer a p) := h

/-- Re-inserting at a key that is already active keeps the invariant. -/
theorem disjointInv_insert_existing (t : TorrentSession) (k : Int)
    (v v2 : ActivePiece) (hk : alLookup t.activePieces k = some v)
    (h : disjointInv t) :
    disjointInv { t with activePieces := alInsert t.activePieces k v2 } := by
  intro p hp
  have hnone : alLookup t.activePieces p = none := h p hp
  show alLookup (alInsert t.activePieces k v2) p = none
  rw [alLookup_insert]
  split_ifs with hpk
  · subst hpk
    rw [hk] at hnone
    cases hnone
  · exact hnone

/-- Inserting at a key whose pieceSet bit is clear keeps the invariant. -/
theorem disjointInv_insert_unset (t : TorrentSession) (k : Int)
    (v2 : ActivePiece) (hk : t.pieceSet.isSet k = false)
    (h : disjointInv t) :
    disjointInv { t with activePieces := alInsert t.activePieces k v2 } := by
  intro p hp
  show alLookup (alInsert t.activePieces k v2) p = none
  rw [alLookup_insert]
  split_ifs with hpk
  · subst hpk
    have hp' : t.pieceSet.isSet p = true := hp
    rw [hp'] at hk
    cases hk
  · exact h p hp

theorem disjointInv_removeRequest (t : TorrentSession) (piece block : Int)
    (h : disjointInv t) : disjointInv (t.removeRequest piece block) := by
  unfold TorrentSession.removeRequest
  split
  · rename_i v hv
    dsimp only
    split_ifs with h1 h2
    · exact disjointInv_insert_existing t piece v _ hv h
    · exact h
    · exact h
  · exact h

theorem disjointInv_removeRequestsLoop (keys : List Nat) :
    ∀ t, disjointInv t → disjointInv (removeRequestsLoop t keys) := by
  induction keys with
  | nil => intro t h; exact h
  | cons k rest ih =>
    intro t h
    exact ih _ (disjointInv_removeRequest t _ _ h)

theorem disjointInv_removeRequests (t : TorrentSession) (a : String)
    (h : disjointInv t) : disjointInv (t.removeRequests a) :=
  disjointInv_setPeer _ a _
    (disjointInv_removeRequestsLoop _ t h)

theorem disjointInv_doChoke (t : TorrentSession) (a : String)
    (h : disjointInv t) : disjointInv (t.doChoke a) :=
  disjointInv_removeRequests _ a (disjointInv_setPeer t a _ h)

theorem disjointInv_doCheckRequestsLoop (entries : List (Nat × Int))
    (now : Int) : ∀ t, disjointInv t →
      disjointInv (doCheckRequestsLoop t entries now) := by
  induction entries with
  | nil => intro t h; exact h
  | cons kv rest ih =>
    obtain ⟨k, v⟩ := kv
    intro t h
    unfold doCheckRequestsLoop
    split_ifs with h1
    · exact ih _ (disjointInv_removeRequest t _ _ h)
    · exact ih t h

theorem disjointInv_doCheckRequests (t : TorrentSession) (a : String)
    (now : Int) (h : disjointInv t) :
    disjointInv (t.doCheckRequests a now) :=
  disjointInv_doCheckRequestsLoop _ now t h

theorem disjointInv_ClosePeer (t : TorrentSession) (a : String)
    (h : disjointInv t) : disjointInv (t.ClosePeer a) :=
  disjointInv_removeRequests t a h

theorem disjointInv_requestBlockImp (t : TorrentSession) (a : String)
    (piece block : Int) (req : Bool) (now : Int) (h : disjointInv t) :
    disjointInv (t.requestBlockImp a piece block req now) := h

theorem disjointInv_RequestBlock2 (t : TorrentSession) (a : String)
    (piece : Int) (eg : Bool) (now : Int) (h : disjointInv t) :
    ∀ t2 f, t.RequestBlock2 a piece eg now = (t2, f) → disjointInv t2 := by
  intro t2 f heq
  unfold TorrentSession.RequestBlock2 at heq
  split at heq
  · rename_i v hv
    dsimp only at heq
    split_ifs at heq with hblk
    · injection heq with h1 h2
      subst h1
      exact disjointInv_requestBlockImp _ a piece _ true now
        (disjointInv_insert_existing t piece v _ hv h)
    · injection heq with h1 h2
      subst h1
      exact h
  · injection heq with h1 h2
    subst h1
    exact h

theorem disjointInv_RequestBlock2_fst (t : TorrentSession) (a : String)
    (piece : Int) (eg : Bool) (now : Int) (h : disjointInv t) :
    disjointInv ((t.RequestBlock2 a piece eg now).1) :=
  disjointInv_RequestBlock2 t a piece eg now h _ _ rfl

theorem disjointInv_tryActivePieces (a : String) (eg : Bool) (now : Int) :
    ∀ (keys : List Int) (t : TorrentSession), disjointInv t →
      ∀ t2 f, t.tryActivePieces a keys eg now = (t2, f) →
        disjointInv t2 := by
  intro keys
  induction keys with
  | nil =>
    intro t h t2 f heq
    unfold TorrentSession.tryActivePieces at heq
    injection heq with h1 h2
    subst h1
    exact h
  | cons k rest ih =>
    intro t h t2 f heq
    unfold TorrentSession.tryActivePieces at heq
    split at heq
    · rcases hr : t.RequestBlock2 a k eg now with ⟨t1, f1⟩
      rw [hr] at heq
      dsimp only at heq
      have h1 : disjointInv t1 := disjointInv_RequestBlock2 t a k eg now
        h t1 f1 hr
      split_ifs at heq with hf1
      · exact ih t1 h1 t2 f heq
      · injection heq with he1 he2
        subst he1
        exact h1
    · exact ih t h t2 f heq

theorem disjointInv_tryActivePieces_fst (t : TorrentSession) (a : String)
    (keys : List Int) (eg : Bool) (now : Int) (h : disjointInv t) :
    disjointInv ((t.tryActivePieces a keys eg now).1) :=
  disjointInv_tryActivePieces a eg now keys t h _ _ rfl

/-- A nonnegative ChoosePiece result satisfies all three scan
conditions: pieceSet clear, peer holds it, not active. -/
theorem ChoosePiece_good (t : TorrentSession) (p : PeerState) (s : Int)
    (hnn : 0 ≤ t.ChoosePiece p s) : goodPiece t p (t.ChoosePiece p s) := by
  unfold TorrentSession.ChoosePiece TorrentSession.checkRange at hnn ⊢
  dsimp only at hnn ⊢
  split_ifs at hnn ⊢ with hp1
  · rcases checkRangeGo_spec t p (s - 0).toNat 0 with ⟨hm1, _⟩ |
      ⟨_, _, hg, _⟩
    · rw [hm1] at hnn
      exact absurd hnn (by decide)
    · exact hg
  · rcases checkRangeGo_spec t p (t.totalPieces - s).toNat s with
      ⟨hm1, _⟩ | ⟨_, _, hg, _⟩
    · exact absurd hm1 hp1
    · exact hg

/-- RequestBlock keeps the invariant: it only re-inserts existing active
entries, and the fresh ActivePiece it allocates is for a nonnegative
ChoosePiece result, whose pieceSet bit is clear. -/
theorem disjointInv_RequestBlock (t : TorrentSession) (a : String)
    (start now : Int) (h : disjointInv t) :
    disjointInv ((t.RequestBlock a start now).1) := by
  unfold TorrentSession.RequestBlock
  dsimp only
  split_ifs with hf1 hpc
  · exact disjointInv_tryActivePieces_fst t a _ false now h
  · exact disjointInv_tryActivePieces_fst _ a _ true now
      (disjointInv_tryActivePieces_fst t a _ false now h)
  · exact disjointInv_setPeer _ a _
      (disjointInv_tryActivePieces_fst _ a _ true now
        (disjointInv_tryActivePieces_fst t a _ false now h))
  all_goals
    have hinv1 : disjointInv ((t.tryActivePieces a
        (List.map Prod.fst t.activePieces) false now).1) :=
      disjointInv_tryActivePieces_fst t a _ false now h
  all_goals
    have hgood := ChoosePiece_good
      ((t.tryActivePieces a (List.map Prod.fst t.activePieces) false
        now).1)
      (((t.tryActivePieces a (List.map Prod.fst t.activePieces) false
        now).1).getPeer a) start (by omega)
  all_goals
    exact disjointInv_RequestBlock2_fst _ a _ false now
      (disjointInv_insert_unset _ _ _ hgood.1 hinv1)

theorem disjointInv_unchokeLoop (a : String) (now : Int) :
    ∀ (fuel : Nat) (t : TorrentSession) (rands : List Int),
      disjointInv t → disjointInv ((unchokeLoop t a rands now fuel).1) := by
  intro fuel
  induction fuel with
  | zero => intro t rands h; exact h
  | succ n ih =>
    intro t rands h
    unfold unchokeLoop
    rcases hr : t.RequestBlock a (rands.getD 0 0) now with ⟨t1, e1⟩
    have h1 : disjointInv t1 := by
      have h0 := disjointInv_RequestBlock t a (rands.getD 0 0) now h
      rw [hr] at h0
      exact h0
    dsimp only
    cases e1 with
    | none => exact ih t1 (rands.drop 1) h1
    | some e => exact h1

/-- The effect of RecordBlock on (pieceSet, activePieces): either both
are untouched, or the active entry of the recorded piece is re-inserted,
or — on completion — the piece's entry is erased in the same step that
sets its pieceSet bit. -/
theorem RecordBlock_parts (t : TorrentSession) (a : String)
    (piece beg length : Nat) (now : Int) :
    ((t.RecordBlock a piece beg length now).pieceSet = t.pieceSet ∧
      ((t.RecordBlock a piece beg length now).activePieces =
          t.activePieces ∨
        ∃ v v2, alLookup t.activePieces (goInt32 piece) = some v ∧
          (t.RecordBlock a piece beg length now).activePieces =
            alInsert t.activePieces (goInt32 piece) v2)) ∨
    ∃ v2, (t.RecordBlock a piece beg length now).pieceSet =
        t.pieceSet.set (goInt32 piece) ∧
      (t.RecordBlock a piece beg length now).activePieces =
        alErase (alInsert t.activePieces (goInt32 piece) v2)
          (goInt32 piece) := by
  unfold TorrentSession.RecordBlock
  dsimp only
  split
  · rename_i v hv
    have hv' : alLookup t.activePieces (goInt32 piece) = some v := hv
    split_ifs with hcomp hcan hcan
    · refine Or.inr ⟨(v.recordBlock
        (beg / STANDARD_BLOCK_LENGTH.toNat)).2, ?_, ?_⟩
      · rw [(broadcastHave_preserves _ _ _ _).2.2]
        dsimp only
        rw [(cancelLoop_preserves _ _ _ _ _ _ _).2.2]
        dsimp only [TorrentSession.setPeer]
      · rw [(broadcastHave_preserves _ _ _ _).2.1]
        dsimp only
        rw [(cancelLoop_preserves _ _ _ _ _ _ _).2.1]
        dsimp only [TorrentSession.setPeer]
    · refine Or.inr ⟨(v.recordBlock
        (beg / STANDARD_BLOCK_LENGTH.toNat)).2, ?_, ?_⟩
      · rw [(broadcastHave_preserves _ _ _ _).2.2]
        dsimp only [TorrentSession.setPeer]
      · rw [(broadcastHave_preserves _ _ _ _).2.1]
        dsimp only [TorrentSession.setPeer]
    · refine Or.inl ⟨?_, Or.inr ⟨v, (v.recordBlock
        (beg / STANDARD_BLOCK_LENGTH.toNat)).2, hv', ?_⟩⟩
      · rw [(cancelLoop_preserves _ _ _ _ _ _ _).2.2]
        dsimp only [TorrentSession.setPeer]
      · rw [(cancelLoop_preserves _ _ _ _ _ _ _).2.1]
        dsimp only [TorrentSession.setPeer]
    · exact Or.inl ⟨rfl, Or.inr ⟨v, (v.recordBlock
        (beg / STANDARD_BLOCK_LENGTH.toNat)).2, hv', rfl⟩⟩
  · exact Or.inl ⟨rfl, Or.inl rfl⟩

theorem disjointInv_RecordBlock (t : TorrentSession) (a : String)
    (piece beg length : Nat) (now : Int) (h : disjointInv t) :
    disjointInv (t.RecordBlock a piece beg length now) := by
  rcases RecordBlock_parts t a piece beg length now with
    ⟨hps, hap | ⟨v, v2, hv, hap⟩⟩ | ⟨v2, hps, hap⟩
  · exact disjointInv_congr t _ hps hap h
  · intro p hp
    have hp' : t.pieceSet.isSet p = true := by rw [← hps]; exact hp
    rw [hap, alLookup_insert]
    split_ifs with hpk
    · subst hpk
      have hnone := h _ hp'
      rw [hv] at hnone
      cases hnone
    · exact h p hp'
  · intro p hp
    rw [hap, alLookup_erase]
    split_ifs with hpk
    · rfl
    · rw [alLookup_insert, if_neg hpk]
      refine h p ?_
      rw [hps] at hp
      have hp' : (if p = goInt32 piece then true else t.pieceSet.bits p) =
          true := hp
      rw [if_neg hpk] at hp'
      exact hp'

theorem disjointInv_sendRequest (t : TorrentSession) (a : String)
    (index beg length : Nat) (now : Int) (h : disjointInv t) :
    disjointInv (t.sendRequest a index beg length now) := by
  unfold TorrentSession.sendRequest
  dsimp only
  split_ifs with hch
  · exact h
  · exact h

set_option maxHeartbeats 1000000 in
theorem disjointInv_DoMessage (t : TorrentSession) (a : String)
    (msg : Option (List Nat)) (rands : List Int) (now : Int)
    (h : disjointInv t) :
    disjointInv ((t.DoMessage a msg rands now).1) := by
  rcases msg with _ | m
  · by_cases hid : (t.getPeer a).id.length = 0
    · have hred : (t.DoMessage a none rands now).1 = t := by
        simp [TorrentSession.DoMessage, hid]
      rw [hred]
      exact h
    · have hred : (t.DoMessage a none rands now).1 = t := by
        simp [TorrentSession.DoMessage, hid]
      rw [hred]
      exact h
  · by_cases hid : (t.getPeer a).id.length = 0
    · unfold TorrentSession.DoMessage
      dsimp only [Option.getD_some]
      rw [if_pos hid]
      repeat' split
      all_goals exact h
    · rcases m with _ | ⟨mid, rest⟩
      · have hred : (t.DoMessage a (some []) rands now).1 = t := by
          simp [TorrentSession.DoMessage, hid]
        rw [hred]
        exact h
      · unfold TorrentSession.DoMessage
        dsimp only [Option.getD_some]
        rw [if_neg hid, if_neg (show ¬((mid :: rest).length = 0) by simp)]
        by_cases h0 : mid = 0
        · rw [if_pos (show ((mid :: rest).getD 0 0) = 0 by simp [h0])]
          repeat' split
          all_goals first | exact h | exact disjointInv_doChoke _ a h
        · rw [if_neg (show ¬(((mid :: rest).getD 0 0) = 0) by simp [h0])]
          by_cases h1 : mid = 1
          · rw [if_pos (show ((mid :: rest).getD 0 0) = 1 by simp [h1])]
            repeat' split
            all_goals
              first
                | exact h
                | exact disjointInv_unchokeLoop a now _ _ rands h
          · rw [if_neg (show ¬(((mid :: rest).getD 0 0) = 1) by simp [h1])]
            by_cases h2 : mid = 2
            · rw [if_pos (show ((mid :: rest).getD 0 0) = 2 by simp [h2])]
              repeat' split
              all_goals exact h
            · rw [if_neg (show ¬(((mid :: rest).getD 0 0) = 2) by
                simp [h2])]
              by_cases h3 : mid = 3
              · rw [if_pos (show ((mid :: rest).getD 0 0) = 3 by
                  simp [h3])]
                repeat' split
                all_goals exact h
              · rw [if_neg (show ¬(((mid :: rest).getD 0 0) = 3) by
                  simp [h3])]
                by_cases h4 : mid = 4
                · rw [if_pos (show ((mid :: rest).getD 0 0) = 4 by
                    simp [h4])]
                  repeat' split
                  all_goals exact h
                · rw [if_neg (show ¬(((mid :: rest).getD 0 0) = 4) by
                    simp [h4])]
                  by_cases h5 : mid = 5
                  · rw [if_pos (show ((mid :: rest).getD 0 0) = 5 by
                      simp [h5])]
                    repeat' split
                    all_goals exact h
                  · rw [if_neg (show ¬(((mid :: rest).getD 0 0) = 5) by
                      simp [h5])]
                    by_cases h6 : mid = 6
                    · rw [if_pos (show ((mid :: rest).getD 0 0) = 6 by
                        simp [h6])]
                      repeat' split
                      all_goals
                        first
                          | exact h
                          | exact disjointInv_sendRequest _ a _ _ _ now h
                    · rw [if_neg (show ¬(((mid :: rest).getD 0 0) = 6) by
                        simp [h6])]
                      by_cases h7 : mid = 7
                      · rw [if_pos (show ((mid :: rest).getD 0 0) = 7 by
                          simp [h7])]
                        repeat' split
                        all_goals
                          first
                            | exact h
                            | exact disjointInv_RequestBlock _ a _ now
                                (disjointInv_RecordBlock _ a _ _ _ now h)
                      · rw [if_neg (show ¬(((mid :: rest).getD 0 0) = 7)
                          by simp [h7])]
                        by_cases h8 : mid = 8
                        · rw [if_pos (show ((mid :: rest).getD 0 0) = 8
                            by simp [h8])]
                          repeat' split
                          all_goals exact h
                        · rw [if_neg (show ¬(((mid :: rest).getD 0 0) =
                            8) by simp [h8])]
                          by_cases h9 : mid = 9
                          · rw [if_pos (show ((mid :: rest).getD 0 0) = 9
                              by simp [h9])]
                            exact h
                          · rw [if_neg (show ¬(((mid :: rest).getD 0 0) =
                              9) by simp [h9])]
                            exact h

/-- C1: every session event keeps pieceSet and activePieces disjoint,
and ChoosePiece only ever returns a piece outside both.  The events are
the message dispatch DoMessage (whose piece branch completes pieces in
RecordBlock and allocates fresh ones in RequestBlock), the peer teardown
ClosePeer, and the heartbeat doCheckRequests. -/
theorem pieceSet_activePieces_disjoint (t : TorrentSession)
    (h : disjointInv t) (a : String) (msg : Option (List Nat))
    (rands : List Int) (now s : Int) (q : PeerState) :
    disjointInv ((t.DoMessage a msg rands now).1) ∧
    disjointInv (t.ClosePeer a) ∧
    disjointInv (t.doCheckRequests a now) ∧
    (0 ≤ t.ChoosePiece q s →
      t.pieceSet.isSet (t.ChoosePiece q s) = false ∧
      alLookup t.activePieces (t.ChoosePiece q s) = none) :=
  ⟨disjointInv_DoMessage t a msg rands now h,
    disjointInv_ClosePeer t a h,
    disjointInv_doCheckRequests t a now h,
    fun hnn => ⟨(ChoosePiece_good t q s hnn).1,
      (ChoosePiece_good t q s hnn).2.2⟩⟩

/-- Witness for C1 at a concrete disjoint session and an unchoke event. -/
theorem pieceSet_activePieces_disjoint_witness :
    disjointInv sessionC1 ∧
    (disjointInv ((sessionC1.DoMessage "A" (some [1]) [0] 0).1) ∧
     disjointInv (sessionC1.ClosePeer "A") ∧
     disjointInv (sessionC1.doCheckRequests "A" 0) ∧
     (0 ≤ sessionC1.ChoosePiece peerC1 0 →
       sessionC1.pieceSet.isSet (sessionC1.ChoosePiece peerC1 0) = false ∧
       alLookup sessionC1.activePieces (sessionC1.ChoosePiece peerC1 0) =
         none)) :=
  ⟨fun p hp => rfl,
    pieceSet_activePieces_disjoint sessionC1 (fun p hp => rfl) "A"
      (some [1]) [0] 0 0 peerC1⟩
